import Mathlib

/-!
Verification of the stateless-payments repository core against its design
specification.

Shallow embedding conventions:
* 32-byte SHA-256 hash values, BLS public keys and BLS signatures are modelled
  as `Nat`.  No algebraic property of SHA-256 or BLS is assumed anywhere:
  the pair-compression function `h2` (SHA-256 over the concatenation of two
  nodes, `aggregator.rs::Sha256Algorithm`), the batch-hash function `bh`
  (`types/transaction.rs::TransactionBatch::tx_hash`) and the individual
  signature verifier `sigVerify` (`blsful` message-augmentation verification)
  are universally quantified parameters of every definition and theorem that
  needs them.
* `u64` values are modelled as `Nat`; where the source performs a checked
  conversion or checked subtraction the explicit bound `2 ^ 64` appears.
* `i128` accumulators are modelled as `Int` (the source comment notes the wide
  signed accumulator exists precisely so intermediate values cannot underflow).
* Rust `HashMap`/`IndexMap` values are modelled as association lists; a list
  order stands for one iteration order of the map.
* a `&mut self` method returning `Result` becomes a function returning
  `Except E A × State`: the state component is the post-state, and each early
  `return Err(..)` of the source returns the unchanged input state.
-/

namespace StatelessPayments

/-- Upper bound of `u64`: `u64` values range over `[0, 2^64)`. -/
def u64Bound : Nat := 2 ^ 64

/-- Association-list lookup, first match wins; models `HashMap::get` /
`IndexMap::get` (map keys are unique in the source, so first match is the
match). -/
def alookup {κ α : Type} [DecidableEq κ] : List (κ × α) → κ → Option α
  | [], _ => none
  | (k, v) :: rest, q => if k = q then some v else alookup rest q

/-- In-place update of the value stored at a key, models `get_mut` followed by
a field assignment; keys and order are unchanged, a missing key is a no-op. -/
def aset {κ α : Type} [DecidableEq κ] : List (κ × α) → κ → α → List (κ × α)
  | [], _, _ => []
  | (k, v) :: rest, q, w => if k = q then (k, w) :: rest else (k, v) :: aset rest q w

/-- `entry(pk).and_modify(|e| *e += d).or_insert(d)` on a signed accumulator
map (`client/utils.rs`, the `unchecked_balances` map). -/
def bumpDelta : List (Nat × Int) → Nat → Int → List (Nat × Int)
  | [], pk, d => [(pk, d)]
  | (k, v) :: rest, pk, d =>
    if k = pk then (k, v + d) :: rest else (k, v) :: bumpDelta rest pk d

/-- `types/transaction.rs::SimpleTransaction`.  `from` and `to` are Lean
keywords, so the source fields are named `fromPk` and `toPk`. -/
structure SimpleTransaction where
  toPk : Nat
  fromPk : Nat
  amount : Nat
  salt : Nat
deriving DecidableEq

/-- `types/transaction.rs::TransactionBatch`. -/
structure TransactionBatch where
  fromPk : Nat
  transactions : List SimpleTransaction
deriving DecidableEq

/-- `types/transaction.rs::TransactionProof` (also `types/common.rs`): Merkle
inclusion proof for the batch with hash `bh batch` at leaf `index` of a tree
with `total_leaves` leaves and root `root`. -/
structure TransactionProof where
  proof_hashes : List Nat
  root : Nat
  batch : TransactionBatch
  index : Nat
  total_leaves : Nat
deriving DecidableEq

/-- `types/common.rs::TransferBlockSignature`.  The aggregate signature wrapper
(`BlsAggregateSignatureWrapper`) is modelled by the list of the individual
signatures it aggregates. -/
inductive TransferBlockSignature where
  | Aggregated (aggsig : List Nat) (public_keys : List Nat)
  | Individual (sig : Nat) (public_key : Nat)
deriving DecidableEq

/-- `types/common.rs::TransferBlock`. -/
structure TransferBlock where
  signature : TransferBlockSignature
  merkle_root : Nat
deriving DecidableEq

/-- `types/balance.rs::BalanceProofKey` (also `types/common.rs`). -/
structure BalanceProofKey where
  root : Nat
  public_key : Nat
deriving DecidableEq

/-- `types/balance.rs`: `BalanceProof = HashMap<BalanceProofKey,
TransactionProof>`, modelled as an association list in iteration order. -/
abbrev BalanceProof : Type := List (BalanceProofKey × TransactionProof)

/-! ## The Merkle tree of the `rs_merkle` dependency

`aggregator.rs` delegates tree building, proof extraction and proof
verification to the `rs_merkle` crate (`MerkleTree<Sha256Algorithm>` /
`MerkleProof`).  The crate builds the tree level by level: adjacent nodes are
hashed pairwise and an unpaired last node is promoted unchanged to the next
level (`Hasher::concat_and_hash` with `right == None` returns `left`).  The
functions below are that algorithm, specialised to the single-leaf proofs the
repository requests (`merkle_tree.proof(&[index])`). -/

/-- One parent level of the `rs_merkle` tree: hash adjacent pairs with `h2`,
promote an unpaired last node unchanged. -/
def buildParentLayer (h2 : Nat → Nat → Nat) : List Nat → List Nat
  | [] => []
  | [a] => [a]
  | a :: b :: rest => h2 a b :: buildParentLayer h2 rest

/-- `MerkleTree::root`: fold `buildParentLayer` until one node remains;
`none` on an empty tree (the source returns `None`, surfaced as the
`EmptyTree`/`No transactions` failure). -/
def layerRoot (h2 : Nat → Nat → Nat) (l : List Nat) : Option Nat :=
  match l with
  | [] => none
  | [a] => some a
  | a :: b :: rest => layerRoot h2 (buildParentLayer h2 (a :: b :: rest))
termination_by l.length
decreasing_by
  have key : ∀ m : List Nat, (buildParentLayer h2 m).length ≤ m.length := by
    intro m
    generalize hn : m.length = n
    induction n using Nat.strong_induction_on generalizing m with
    | _ n ih =>
      cases m with
      | nil => simp [buildParentLayer]
      | cons a t =>
        cases t with
        | nil =>
          simp only [List.length_cons, List.length_nil] at hn
          simp [buildParentLayer]
          omega
        | cons b r =>
          simp only [List.length_cons] at hn
          have h := ih r.length (by omega) r rfl
          simp [buildParentLayer]
          omega
  have h := key rest
  simp [buildParentLayer]
  omega

/-- `MerkleTree::proof(&[i])`: the sibling hashes along the path of leaf `i`,
bottom level first; at each level the sibling is included when it exists
(an unpaired last node has no sibling at that level). -/
def proofHashesForIndex (h2 : Nat → Nat → Nat) (l : List Nat) (i : Nat) : List Nat :=
  match l with
  | [] => []
  | [_] => []
  | a :: b :: rest =>
    (match (a :: b :: rest)[if i % 2 = 0 then i + 1 else i - 1]? with
     | some s => [s]
     | none => []) ++
      proofHashesForIndex h2 (buildParentLayer h2 (a :: b :: rest)) (i / 2)
termination_by l.length
decreasing_by
  have key : ∀ m : List Nat, (buildParentLayer h2 m).length ≤ m.length := by
    intro m
    generalize hn : m.length = n
    induction n using Nat.strong_induction_on generalizing m with
    | _ n ih =>
      cases m with
      | nil => simp [buildParentLayer]
      | cons a t =>
        cases t with
        | nil =>
          simp only [List.length_cons, List.length_nil] at hn
          simp [buildParentLayer]
          omega
        | cons b r =>
          simp only [List.length_cons] at hn
          have h := ih r.length (by omega) r rfl
          simp [buildParentLayer]
          omega
  have h := key rest
  simp [buildParentLayer]
  omega

/-- `MerkleProof::root` for a single leaf: recompute the root from the leaf
value `node` at index `i` of a level of `n` nodes, consuming the proof hashes
in order; concatenation order at each level follows the parity of the index,
and an index whose sibling does not exist at its level is promoted unchanged.
`none` when the proof has too few or too many hashes. -/
def computeProofRoot (h2 : Nat → Nat → Nat) :
    List Nat → Nat → Nat → Nat → Option Nat
  | proof, i, n, node =>
    if n ≤ 1 then (if proof = [] then some node else none)
    else if i % 2 = 1 then
      match proof with
      | [] => none
      | p :: rest => computeProofRoot h2 rest (i / 2) ((n + 1) / 2) (h2 p node)
    else if i + 1 < n then
      match proof with
      | [] => none
      | p :: rest => computeProofRoot h2 rest (i / 2) ((n + 1) / 2) (h2 node p)
    else computeProofRoot h2 proof (i / 2) ((n + 1) / 2) node
termination_by _ _ n _ => n
decreasing_by all_goals omega

/-- `types/transaction.rs::TransactionProof::verify`: rebuild the root from
`batch.tx_hash()` (here `bh batch`), the proof hashes, the index and the total
leaf count, and compare with the stored root. -/
def TransactionProof.verify (h2 : Nat → Nat → Nat) (bh : TransactionBatch → Nat)
    (p : TransactionProof) : Bool :=
  decide (computeProofRoot h2 p.proof_hashes p.index p.total_leaves (bh p.batch)
    = some p.root)

/-! ## Signatures and transfer blocks -/

/-- Modelled from the spec: `blsful`'s `AggregateSignature::verify` over a
list of `(public_key, message)` pairs "succeeds iff each individual signature
would verify" (spec section 3); the aggregate is modelled by the list of the
individual signatures it was built from, paired with the keys in order. -/
def aggregateVerify (sigVerify : Nat → Nat → Nat → Bool) (aggsig : List Nat)
    (pairs : List (Nat × Nat)) : Bool :=
  aggsig.length == pairs.length &&
    (aggsig.zip pairs).all (fun sp => sigVerify sp.1 sp.2.1 sp.2.2)

/-- Modelled from the spec: `blsful`'s `AggregateSignature::from_signatures`,
defined "over any non-empty set of signatures" (spec section 3); on an empty
set it fails (the `AggregateError` failure of the finalise row). -/
def fromSignatures (sigs : List Nat) : Option (List Nat) :=
  if sigs = [] then none else some sigs

/-- `types/common.rs::TransferBlock::verify`: an `Aggregated` signature must
certify every listed key as signing exactly `merkle_root`; an `Individual`
signature must verify against its key over `merkle_root`. -/
def TransferBlock.verify (sigVerify : Nat → Nat → Nat → Bool) (tb : TransferBlock) :
    Bool :=
  match tb.signature with
  | .Aggregated aggsig public_keys =>
    aggregateVerify sigVerify aggsig (public_keys.map (fun pk => (pk, tb.merkle_root)))
  | .Individual sig public_key => sigVerify sig public_key tb.merkle_root

/-- `types/common.rs::TransferBlock::contains_pubkey`. -/
def TransferBlock.containsPubkey (tb : TransferBlock) (pk : Nat) : Bool :=
  match tb.signature with
  | .Aggregated _ public_keys => public_keys.contains pk
  | .Individual _ public_key => public_key == pk

/-- `types/common.rs::TransferBlockSignature::new`: `Individual` when exactly
one `(public_key, signature)` pair is given, otherwise an `Aggregated`
signature over all given signatures with the keys listed in order
(`BlsAggregateSignature::from_signatures` fails on the empty list). -/
def TransferBlockSignature.new (values : List (Nat × Nat)) :
    Option TransferBlockSignature :=
  match values with
  | [(public_key, sig)] => some (.Individual sig public_key)
  | _ =>
    match fromSignatures (values.map (fun v => v.2)) with
    | none => none
    | some aggsig => some (.Aggregated aggsig (values.map (fun v => v.1)))

/-! ## The settlement (rollup) view -/

/-- `rollup/mock_rollup_memory.rs::MockRollupMemory` (= the state behind
`rollup/traits.rs::RollupStateTrait` and `rollup/rollup_state.rs`): per-account
deposit and withdraw totals plus the append-only transfer-block log.  The
`AccountTotals` hash maps are association lists in iteration order. -/
structure RollupState where
  deposit_totals : List (Nat × Nat)
  withdraw_totals : List (Nat × Nat)
  transfer_blocks : List TransferBlock
deriving DecidableEq

/-- `RollupStateTrait::get_account_deposit_amount`:
`deposit_totals.get(pk).unwrap_or(0)`. -/
def RollupState.depositAmount (s : RollupState) (pk : Nat) : Nat :=
  (alookup s.deposit_totals pk).getD 0

/-- `RollupStateTrait::get_account_withdraw_amount`:
`withdraw_totals.get(pk).unwrap_or(0)`. -/
def RollupState.withdrawAmount (s : RollupState) (pk : Nat) : Nat :=
  (alookup s.withdraw_totals pk).getD 0

/-- `RollupStateTrait::get_transfer_block_for_merkle_root_and_pubkey`: the
first transfer block whose root equals `root` and whose signer set contains
`pk`. -/
def RollupState.getTransferBlockForMerkleRootAndPubkey (s : RollupState)
    (root pk : Nat) : Option TransferBlock :=
  s.transfer_blocks.find? (fun tb => tb.merkle_root == root && tb.containsPubkey pk)

/-! ## The balance-proof validator (`client/utils.rs`) -/

/-- The error outcomes of
`calculate_balances_and_validate_balance_proof`, one constructor per distinct
failure site of the source (the source uses `anyhow` strings except for
`StatelessBitcoinError::BatchNotInATransferBlock`, which carries the offending
batch). -/
inductive ValError where
  | InvalidProof (batch : TransactionBatch)
  | BatchNotInATransferBlock (batch : TransactionBatch)
  | BadTransferBlock
  | BalanceNegative (pk : Nat)
deriving DecidableEq

/-- The per-proof validation steps of the loop body of
`calculate_balances_and_validate_balance_proof`: Merkle verification, the
transfer-block lookup, and the transfer-block signature check; `none` when all
three pass. -/
def entryCheck (h2 : Nat → Nat → Nat) (bh : TransactionBatch → Nat)
    (sigVerify : Nat → Nat → Nat → Bool) (view : RollupState)
    (p : TransactionProof) : Option ValError :=
  if ¬ p.verify h2 bh then some (.InvalidProof p.batch)
  else
    match view.getTransferBlockForMerkleRootAndPubkey p.root p.batch.fromPk with
    | none => some (.BatchNotInATransferBlock p.batch)
    | some tb => if ¬ tb.verify sigVerify then some .BadTransferBlock else none

/-- The accumulation step of the loop body: for each transaction of the batch,
`delta[batch.from] -= amount; delta[tx.to] += amount` on the signed
(`i128`, here `Int`) accumulator. -/
def applyBatch (delta : List (Nat × Int)) (batch : TransactionBatch) :
    List (Nat × Int) :=
  batch.transactions.foldl
    (fun d t => bumpDelta (bumpDelta d batch.fromPk (-(t.amount : Int))) t.toPk
      (t.amount : Int))
    delta

/-- The first loop of `calculate_balances_and_validate_balance_proof` over the
stored `TransactionProof` values: check each entry and accumulate its
transaction amounts, aborting with the first failing entry's error. -/
def collectDeltas (h2 : Nat → Nat → Nat) (bh : TransactionBatch → Nat)
    (sigVerify : Nat → Nat → Nat → Bool) (view : RollupState) :
    List TransactionProof → List (Nat × Int) → Except ValError (List (Nat × Int))
  | [], delta => .ok delta
  | p :: rest, delta =>
    match entryCheck h2 bh sigVerify view p with
    | some e => .error e
    | none => collectDeltas h2 bh sigVerify view rest (applyBatch delta p.batch)

/-- The second loop of `calculate_balances_and_validate_balance_proof`: for
each accumulated account, `balance = delta + deposits - withdrawals` as `i128`,
then `try_into::<u64>()`, which fails below `0` and above `u64::MAX`. -/
def finaliseBalances (view : RollupState) :
    List (Nat × Int) → Except ValError (List (Nat × Nat))
  | [] => .ok []
  | (pk, amt) :: rest =>
    let bal : Int := amt + (view.depositAmount pk : Int) - (view.withdrawAmount pk : Int)
    if bal < 0 ∨ (u64Bound : Int) ≤ bal then .error (.BalanceNegative pk)
    else
      match finaliseBalances view rest with
      | .error e => .error e
      | .ok m => .ok ((pk, bal.toNat) :: m)

/-- `calculate_balances_and_validate_balance_proof` restricted to the list of
stored proof values, which is all the source reads
(`for transaction_proof in balance_proof.values()`). -/
def calculateBalancesFromProofs (h2 : Nat → Nat → Nat) (bh : TransactionBatch → Nat)
    (sigVerify : Nat → Nat → Nat → Bool) (view : RollupState)
    (proofs : List TransactionProof) : Except ValError (List (Nat × Nat)) :=
  match collectDeltas h2 bh sigVerify view proofs [] with
  | .error e => .error e
  | .ok delta => finaliseBalances view delta

/-- `client/utils.rs::calculate_balances_and_validate_balance_proof`. -/
def calculateBalancesAndValidateBalanceProof (h2 : Nat → Nat → Nat)
    (bh : TransactionBatch → Nat) (sigVerify : Nat → Nat → Nat → Bool)
    (view : RollupState) (bp : BalanceProof) : Except ValError (List (Nat × Nat)) :=
  calculateBalancesFromProofs h2 bh sigVerify view (bp.map (fun kv => kv.2))

/-- `client/utils.rs::merge_balance_proofs`: start from the current wallet's
proof and insert each of the sender's entries unless its key is already
present. -/
def mergeBalanceProofs (current : BalanceProof) : BalanceProof → BalanceProof
  | [] => current
  | kv :: rest =>
    if (current.map (fun e => e.1)).contains kv.1 then mergeBalanceProofs current rest
    else mergeBalanceProofs (current ++ [kv]) rest

/-! ## The wallet (`wallet/wallet.rs`) -/

/-- The failure outcomes of `Wallet::append_transaction_to_batch`, one
constructor per `anyhow` early return of the source, in source order. -/
inductive WalletError where
  | BatchPending
  | SelfSend
  | ZeroAmount
  | Insufficient
deriving DecidableEq

/-- `u64::checked_sub`: `none` on underflow. -/
def checkedSub (a b : Nat) : Option Nat :=
  if b ≤ a then some (a - b) else none

/-- `wallet/wallet.rs::Wallet`, the fields touched by
`append_transaction_to_batch` (key material is summarised by `public_key`;
the balance proof is carried unchanged). -/
structure Wallet where
  public_key : Nat
  balance : Nat
  transaction_batch : TransactionBatch
  batch_is_pending : Bool
  balance_proof : BalanceProof
deriving DecidableEq

/-- `Wallet::append_transaction_to_batch(to, amount)`.  The fresh random salt
drawn by `generate_salt()` is an input here.  Checks in source order: pending
batch, self-send, zero amount, then `balance.checked_sub(amount)`; every early
return leaves the wallet exactly as it was, and on success the balance drops
by `amount` and one transaction is pushed onto the open batch. -/
def Wallet.appendTransactionToBatch (w : Wallet) (toPk amount salt : Nat) :
    Except WalletError Unit × Wallet :=
  if w.batch_is_pending then (.error .BatchPending, w)
  else if toPk = w.public_key then (.error .SelfSend, w)
  else if amount = 0 then (.error .ZeroAmount, w)
  else
    match checkedSub w.balance amount with
    | none => (.error .Insufficient, w)
    | some b =>
      (.ok (),
        { w with
          balance := b
          transaction_batch :=
            { w.transaction_batch with
              transactions := w.transaction_batch.transactions ++
                [{ toPk := toPk, fromPk := w.public_key, amount := amount, salt := salt }] } })

/-! ## The aggregator of `aggregator.rs` (metadata keyed by `(tx_hash, pk)`)

This is the aggregator file present in the repository snapshot: metadata is an
`IndexMap` keyed by the pair `(tx_hash, public_key)`, and `add_signature`
stores the incoming signature without verifying it — the verification call
(`verify_messages(&signature, &[self.root()?...], &[public_key])`,
`aggregator.rs` lines 148–150) is commented out in the source. -/

/-- The failure outcomes of the aggregator operations (spec section 4.3
failure columns; the source uses `anyhow` strings). -/
inductive AggError where
  | WrongState
  | DuplicateSender
  | NotFound
  | NoSignatures
  | AggregateError
  | EmptyTree
deriving DecidableEq

/-- `aggregator.rs::TxMetadata`. -/
structure TxMetadata where
  index : Nat
  public_key : Nat
  signature : Option Nat
deriving DecidableEq

/-- The `TransferBlock` shape built by `aggregator.rs::finalise` (the older
generation of `TransferBlock`, with an aggregate signature and explicit key
list). -/
structure OldTransferBlock where
  aggregated_signature : List Nat
  merkle_root : Nat
  public_keys : List Nat
deriving DecidableEq

/-- `aggregator.rs::AggregatorState`. -/
inductive OldAggregatorState where
  | Open
  | CollectSignatures
  | Finalised (b : OldTransferBlock)
deriving DecidableEq

/-- `aggregator.rs::Aggregator`: metadata keyed by `(tx_hash, public_key)` in
insertion order, plus the committed Merkle leaves (the inserted `tx_hash`
values in insertion order). -/
structure OldAggregator where
  tx_hash_to_metadata : List ((Nat × Nat) × TxMetadata)
  merkle_leaves : List Nat
  state : OldAggregatorState
deriving DecidableEq

/-- `aggregator.rs::Aggregator::root`. -/
def OldAggregator.root (h2 : Nat → Nat → Nat) (a : OldAggregator) : Option Nat :=
  layerRoot h2 a.merkle_leaves

/-- `aggregator.rs::Aggregator::add_signature` (lines 137–160): state must be
`CollectSignatures` and the `(tx_hash, public_key)` key must be present; the
signature is then stored unconditionally — the signature-verification check of
lines 148–150 is commented out in the source, so no verification happens. -/
def OldAggregator.addSignature (a : OldAggregator) (tx_hash public_key sig : Nat) :
    Except AggError Unit × OldAggregator :=
  if a.state ≠ .CollectSignatures then (.error .WrongState, a)
  else
    match alookup a.tx_hash_to_metadata (tx_hash, public_key) with
    | none => (.error .NotFound, a)
    | some md =>
      (.ok (),
        { a with
          tx_hash_to_metadata :=
            aset a.tx_hash_to_metadata (tx_hash, public_key)
              { md with signature := some sig } })

/-! ## The aggregator used by the websocket server, wallet and end-to-end
tests (metadata keyed by `public_key`)

`websocket/server/server_state.rs`, `wallet/wallet.rs` and
`tests/test_end_to_end.rs` call an `Aggregator` with `add_batch(&batch)`,
`generate_proof_for_pubkey(&pk)`, `add_signature(&pk, &sig)` and `finalise()`.
That aggregator's source file is not in the repository snapshot (only the
older `(tx_hash, pk)`-keyed `aggregator.rs` is), so its bookkeeping is
modelled from the spec here; the Merkle-tree operations are the `rs_merkle`
embedding above, exactly as in `aggregator.rs`, and
`TransferBlockSignature::new` is embedded from `types/common.rs`. -/

/-- Modelled from the spec: the per-sender metadata of the `public_key`-keyed
aggregator — the assigned leaf index, the sender's batch, and the collected
signature, if any (spec section 4.3: "key = public_key", one leaf per sender,
signatures collected per sender). -/
structure BatchMetadata where
  index : Nat
  batch : TransactionBatch
  signature : Option Nat
deriving DecidableEq

/-- The aggregator state machine `Open | CollectingSignatures |
Finalised(TransferBlock)` (spec section 3). -/
inductive AggregatorState where
  | Open
  | CollectSignatures
  | Finalised (b : TransferBlock)
deriving DecidableEq

/-- Modelled from the spec: the `public_key`-keyed aggregator.  Metadata is an
insertion-ordered map from sender key to `BatchMetadata`; `merkle_leaves` are
the committed leaves, one `batch.tx_hash()` per accepted batch in insertion
order.  The field name `tx_hash_to_metadata` is kept from the callers in
`websocket/server/server_state.rs`. -/
structure Aggregator where
  tx_hash_to_metadata : List (Nat × BatchMetadata)
  merkle_leaves : List Nat
  state : AggregatorState
deriving DecidableEq

/-- `Aggregator::new`: empty tree, no metadata, state `Open`. -/
def Aggregator.new : Aggregator :=
  { tx_hash_to_metadata := [], merkle_leaves := [], state := .Open }

/-- `Aggregator::root`: the Merkle root of the committed leaves. -/
def Aggregator.root (h2 : Nat → Nat → Nat) (a : Aggregator) : Option Nat :=
  layerRoot h2 a.merkle_leaves

/-- Modelled from the spec: `add_batch(batch)` (spec section 4.3) — state must
be `Open` and `batch.from` must not already be present (else the *Duplicate*
failure); on success the batch is stored under its sender key with the next
leaf index, and the leaf `batch.tx_hash()` is inserted and committed. -/
def Aggregator.addBatch (bh : TransactionBatch → Nat) (a : Aggregator)
    (batch : TransactionBatch) : Except AggError Unit × Aggregator :=
  if a.state ≠ .Open then (.error .WrongState, a)
  else if (alookup a.tx_hash_to_metadata batch.fromPk).isSome then
    (.error .DuplicateSender, a)
  else
    (.ok (),
      { a with
        tx_hash_to_metadata := a.tx_hash_to_metadata ++
          [(batch.fromPk,
            { index := a.merkle_leaves.length, batch := batch, signature := none })]
        merkle_leaves := a.merkle_leaves ++ [bh batch] })

/-- `Aggregator::start_collecting_signatures` as in `aggregator.rs` lines
65–71: state must be `Open`, then state becomes `CollectSignatures` (the
emptiness check of the spec's *Empty* failure lives in the caller,
`ServerState::start_collecting_signatures`). -/
def Aggregator.startCollectingSignatures (a : Aggregator) :
    Except AggError Unit × Aggregator :=
  if a.state ≠ .Open then (.error .WrongState, a)
  else (.ok (), { a with state := .CollectSignatures })

/-- Modelled from the spec: `generate_proof_for_pubkey(pk)` (spec section 4.3)
— state must be `CollectSignatures` and `pk` present; the returned
`TransactionProof` carries the Merkle proof for the sender's leaf index, the
current root, the sender's batch, the assigned index and the total leaf count,
exactly as `aggregator.rs::generate_proof_for_tx_hash` lines 109–135 build it. -/
def Aggregator.generateProofForPubkey (h2 : Nat → Nat → Nat)
    (a : Aggregator) (pk : Nat) :
    Except AggError TransactionProof :=
  if a.state ≠ .CollectSignatures then .error .WrongState
  else
    match alookup a.tx_hash_to_metadata pk with
    | none => .error .NotFound
    | some md =>
      match a.root h2 with
      | none => .error .EmptyTree
      | some r =>
        .ok
          { proof_hashes := proofHashesForIndex h2 a.merkle_leaves md.index
            root := r
            batch := md.batch
            index := md.index
            total_leaves := a.merkle_leaves.length }

/-- The `(public_key, signature)` pairs of the senders that signed, in
insertion order (the loop over `tx_hash_to_metadata.values()` in
`aggregator.rs::finalise` lines 168–173). -/
def Aggregator.signedValues (a : Aggregator) : List (Nat × Nat) :=
  a.tx_hash_to_metadata.filterMap
    (fun kv => kv.2.signature.map (fun sig => (kv.1, sig)))

/-- Modelled from the spec: `finalise` (spec section 4.3) — state must be
`CollectSignatures` and at least one signature must have been collected (else
the *NoSignatures* failure); the transfer block's signature is
`TransferBlockSignature::new` (embedded from `types/common.rs`) over the
collected `(public_key, signature)` pairs, its root is the current Merkle
root, and the state moves to `Finalised(block)`. -/
def Aggregator.finalise (h2 : Nat → Nat → Nat) (a : Aggregator) :
    Except AggError TransferBlock × Aggregator :=
  if a.state ≠ .CollectSignatures then (.error .WrongState, a)
  else if a.signedValues = [] then (.error .NoSignatures, a)
  else
    match a.root h2 with
    | none => (.error .EmptyTree, a)
    | some r =>
      match TransferBlockSignature.new a.signedValues with
      | none => (.error .AggregateError, a)
      | some sig =>
        let tb : TransferBlock := { signature := sig, merkle_root := r }
        (.ok tb, { a with state := .Finalised tb })

/-- Fold `add_batch` over a list of batches (the submission loop of a round;
a failed `add_batch` leaves the aggregator unchanged). -/
def addBatches (bh : TransactionBatch → Nat) (a : Aggregator)
    (bs : List TransactionBatch) : Aggregator :=
  bs.foldl (fun s b => (s.addBatch bh b).2) a

/-- The net amount the validator's accumulation loop adds to account `q` for
one batch: `+amount` for each transaction received by `q`, `-amount` for each
transaction sent when `q` is the batch sender. -/
def batchNet (b : TransactionBatch) (q : Nat) : Int :=
  (b.transactions.map (fun t =>
    (if t.toPk = q then (t.amount : Int) else 0) -
      (if b.fromPk = q then (t.amount : Int) else 0))).sum

/-- Account `q` is touched by the batch: the batch sends a transaction (so the
sender key is touched) naming `q` as sender or as one receiver. -/
def touchesKey (b : TransactionBatch) (q : Nat) : Prop :=
  ∃ t ∈ b.transactions, q = b.fromPk ∨ q = t.toPk

/-! ## Lemmas about the `rs_merkle` embedding -/

theorem buildParentLayer_length (h2 : Nat → Nat → Nat) :
    ∀ l : List Nat, (buildParentLayer h2 l).length = (l.length + 1) / 2
  | [] => by simp [buildParentLayer]
  | [_] => by simp [buildParentLayer]
  | _ :: _ :: rest => by
    simp [buildParentLayer, buildParentLayer_length h2 rest]
    omega

theorem buildParentLayer_pair (h2 : Nat → Nat → Nat) :
    ∀ (l : List Nat) (j a b : Nat), l[2 * j]? = some a → l[2 * j + 1]? = some b →
      (buildParentLayer h2 l)[j]? = some (h2 a b)
  | [], j, a, b => by simp
  | [x], j, a, b => by
    intro h1 h2'
    rcases j with _ | j
    · simp at h2'
    · rw [List.getElem?_eq_none (by simp; omega)] at h1
      simp at h1
  | x :: y :: rest, 0, a, b => by
    intro h1 h2'
    simp at h1 h2'
    simp [buildParentLayer, h1, h2']
  | x :: y :: rest, j + 1, a, b => by
    intro h1 h2'
    have e1 : 2 * (j + 1) = 2 * j + 1 + 1 := by omega
    have e2 : 2 * (j + 1) + 1 = 2 * j + 1 + 1 + 1 := by omega
    rw [e1] at h1
    rw [e2] at h2'
    simp only [List.getElem?_cons_succ] at h1 h2'
    simpa [buildParentLayer] using buildParentLayer_pair h2 rest j a b h1 h2'

theorem buildParentLayer_lone (h2 : Nat → Nat → Nat) :
    ∀ (l : List Nat) (j a : Nat), l[2 * j]? = some a → l[2 * j + 1]? = none →
      (buildParentLayer h2 l)[j]? = some a
  | [], j, a => by simp
  | [x], j, a => by
    intro h1 h2'
    rcases j with _ | j
    · simp at h1
      simp [buildParentLayer, h1]
    · rw [List.getElem?_eq_none (by simp; omega)] at h1
      simp at h1
  | x :: y :: rest, 0, a => by
    intro h1 h2'
    simp at h1 h2'
  | x :: y :: rest, j + 1, a => by
    intro h1 h2'
    have e1 : 2 * (j + 1) = 2 * j + 1 + 1 := by omega
    have e2 : 2 * (j + 1) + 1 = 2 * j + 1 + 1 + 1 := by omega
    rw [e1] at h1
    rw [e2] at h2'
    simp only [List.getElem?_cons_succ] at h1 h2'
    simpa [buildParentLayer] using buildParentLayer_lone h2 rest j a h1 h2'

theorem layerRoot_step (h2 : Nat → Nat → Nat) (a b : Nat) (rest : List Nat) :
    layerRoot h2 (a :: b :: rest) = layerRoot h2 (buildParentLayer h2 (a :: b :: rest)) := by
  rw [layerRoot]

theorem computeProofRoot_base (h2 : Nat → Nat → Nat) (i n node : Nat)
    (hn : n ≤ 1) : computeProofRoot h2 [] i n node = some node := by
  rw [computeProofRoot.eq_def]
  dsimp only
  rw [if_pos hn, if_pos rfl]

theorem computeProofRoot_odd (h2 : Nat → Nat → Nat) (p : Nat) (ps : List Nat)
    (i n node : Nat) (hn : ¬ n ≤ 1) (hodd : i % 2 = 1) :
    computeProofRoot h2 (p :: ps) i n node =
      computeProofRoot h2 ps (i / 2) ((n + 1) / 2) (h2 p node) := by
  rw [computeProofRoot.eq_def]
  dsimp only
  rw [if_neg hn, if_pos hodd]

theorem computeProofRoot_even (h2 : Nat → Nat → Nat) (p : Nat) (ps : List Nat)
    (i n node : Nat) (hn : ¬ n ≤ 1) (heven : i % 2 = 0) (hlt : i + 1 < n) :
    computeProofRoot h2 (p :: ps) i n node =
      computeProofRoot h2 ps (i / 2) ((n + 1) / 2) (h2 node p) := by
  rw [computeProofRoot.eq_def]
  dsimp only
  rw [if_neg hn, if_neg (by omega), if_pos hlt]

theorem computeProofRoot_promote (h2 : Nat → Nat → Nat) (proof : List Nat)
    (i n node : Nat) (hn : ¬ n ≤ 1) (heven : i % 2 = 0) (hge : ¬ i + 1 < n) :
    computeProofRoot h2 proof i n node =
      computeProofRoot h2 proof (i / 2) ((n + 1) / 2) node := by
  rw [computeProofRoot.eq_def]
  dsimp only
  rw [if_neg hn, if_neg (by omega), if_neg hge]

/-- Round trip of the `rs_merkle` embedding: the proof the tree extracts for
leaf `i` recomputes exactly the tree's root. -/
theorem computeProofRoot_proofHashes (h2 : Nat → Nat → Nat) :
    ∀ (l : List Nat) (i x : Nat), l[i]? = some x →
      computeProofRoot h2 (proofHashesForIndex h2 l i) i l.length x = layerRoot h2 l
  | [], i, x => by simp
  | [a], i, x => by
    intro h
    rcases i with _ | i
    · simp at h
      simp [proofHashesForIndex, computeProofRoot, layerRoot, h]
    · simp at h
  | a :: b :: rest, i, x => by
    intro h
    have hi : i < (a :: b :: rest).length := (List.getElem?_eq_some.mp h).1
    have hlen : (a :: b :: rest).length = rest.length + 2 := by simp
    have hparlen : (buildParentLayer h2 (a :: b :: rest)).length =
        ((a :: b :: rest).length + 1) / 2 := buildParentLayer_length h2 _
    by_cases hodd : i % 2 = 1
    · -- odd index: the sibling is to the left
      have hs0 : i - 1 < (a :: b :: rest).length := by omega
      obtain ⟨s, hs⟩ : ∃ s, (a :: b :: rest)[i - 1]? = some s :=
        ⟨_, List.getElem?_eq_getElem hs0⟩
      have hpair : (buildParentLayer h2 (a :: b :: rest))[i / 2]? = some (h2 s x) := by
        apply buildParentLayer_pair
        · have e : 2 * (i / 2) = i - 1 := by omega
          rw [e]; exact hs
        · have e : 2 * (i / 2) + 1 = i := by omega
          rw [e]; exact h
      have ih := computeProofRoot_proofHashes h2 (buildParentLayer h2 (a :: b :: rest))
        (i / 2) (h2 s x) hpair
      rw [proofHashesForIndex, if_neg (by omega), hs]
      simp only [List.singleton_append]
      rw [computeProofRoot_odd h2 _ _ _ _ _ (by simp) hodd]
      rw [hparlen] at ih
      rw [layerRoot_step]
      exact ih
    · have heven : i % 2 = 0 := by omega
      by_cases hlt : i + 1 < (a :: b :: rest).length
      · -- even index with a right sibling
        obtain ⟨s, hs⟩ : ∃ s, (a :: b :: rest)[i + 1]? = some s :=
          ⟨_, List.getElem?_eq_getElem hlt⟩
        have hpair : (buildParentLayer h2 (a :: b :: rest))[i / 2]? = some (h2 x s) := by
          apply buildParentLayer_pair
          · have e : 2 * (i / 2) = i := by omega
            rw [e]; exact h
          · have e : 2 * (i / 2) + 1 = i + 1 := by omega
            rw [e]; exact hs
        have ih := computeProofRoot_proofHashes h2 (buildParentLayer h2 (a :: b :: rest))
          (i / 2) (h2 x s) hpair
        rw [proofHashesForIndex, if_pos heven, hs]
        simp only [List.singleton_append]
        rw [computeProofRoot_even h2 _ _ _ _ _ (by simp) heven hlt]
        rw [hparlen] at ih
        rw [layerRoot_step]
        exact ih
      · -- even unpaired last index: promoted unchanged
        have hend : i + 1 = (a :: b :: rest).length := by omega
        have hnone : (a :: b :: rest)[i + 1]? = none :=
          List.getElem?_eq_none (by omega)
        have hlone : (buildParentLayer h2 (a :: b :: rest))[i / 2]? = some x := by
          apply buildParentLayer_lone
          · have e : 2 * (i / 2) = i := by omega
            rw [e]; exact h
          · have e : 2 * (i / 2) + 1 = i + 1 := by omega
            rw [e]; exact hnone
        have ih := computeProofRoot_proofHashes h2 (buildParentLayer h2 (a :: b :: rest))
          (i / 2) x hlone
        rw [proofHashesForIndex, if_pos heven, hnone]
        simp only [List.nil_append]
        rw [computeProofRoot_promote h2 _ _ _ _ (by simp) heven hlt]
        rw [hparlen] at ih
        rw [layerRoot_step]
        exact ih
termination_by l => l.length
decreasing_by
  all_goals
    rw [buildParentLayer_length]
    simp
    omega

/-! ## Association-list lemmas -/

theorem alookup_append {κ α : Type} [DecidableEq κ] :
    ∀ (l1 l2 : List (κ × α)) (k : κ),
      alookup (l1 ++ l2) k = (alookup l1 k).or (alookup l2 k)
  | [], l2, k => by simp [alookup]
  | (k1, v) :: rest, l2, k => by
    by_cases h : k1 = k <;> simp [alookup, h, alookup_append rest l2 k]

theorem alookup_aset_self {κ α : Type} [DecidableEq κ] :
    ∀ (m : List (κ × α)) (k : κ) (v w : α),
      alookup m k = some w → alookup (aset m k v) k = some v
  | [], k, v, w => by simp [alookup]
  | (k1, u) :: rest, k, v, w => by
    by_cases h : k1 = k
    · simp [alookup, aset, h]
    · simp [alookup, aset, h]
      exact alookup_aset_self rest k v w

theorem keys_contains_eq_isSome {κ α : Type} [DecidableEq κ] :
    ∀ (l : List (κ × α)) (k : κ),
      (l.map (fun e => e.1)).contains k = (alookup l k).isSome
  | [], k => by simp [alookup]
  | (k1, v) :: rest, k => by
    by_cases h : k1 = k
    · simp [alookup, h]
    · have hne : ¬ k = k1 := fun e => h e.symm
      have ih := keys_contains_eq_isSome rest k
      simp at ih
      simp [alookup, h, hne, ih]

/-! ## Claim theorems -/

/-- Claim C9: `append_transaction_to_batch(to, amount)` fails with
*BatchPending* when a batch is pending, *SelfSend* when `to` is the wallet's
own key, *ZeroAmount* when `amount = 0` and *Insufficient* when `amount`
exceeds the in-memory balance; each failure leaves the wallet (balance and
open batch included) exactly as it was, and on success exactly `amount` is
deducted from the balance and exactly one transaction carrying the fresh salt
is appended to the open batch. -/
theorem c9_append_transaction_contract (w : Wallet) (toPk amount salt : Nat) :
    (w.batch_is_pending = true →
      w.appendTransactionToBatch toPk amount salt = (.error .BatchPending, w)) ∧
    (w.batch_is_pending = false → toPk = w.public_key →
      w.appendTransactionToBatch toPk amount salt = (.error .SelfSend, w)) ∧
    (w.batch_is_pending = false → toPk ≠ w.public_key → amount = 0 →
      w.appendTransactionToBatch toPk amount salt = (.error .ZeroAmount, w)) ∧
    (w.batch_is_pending = false → toPk ≠ w.public_key → amount ≠ 0 →
      w.balance < amount →
      w.appendTransactionToBatch toPk amount salt = (.error .Insufficient, w)) ∧
    (w.batch_is_pending = false → toPk ≠ w.public_key → amount ≠ 0 →
      amount ≤ w.balance →
      w.appendTransactionToBatch toPk amount salt =
        (.ok (),
          { w with
            balance := w.balance - amount
            transaction_batch :=
              { w.transaction_batch with
                transactions := w.transaction_batch.transactions ++
                  [{ toPk := toPk, fromPk := w.public_key, amount := amount,
                     salt := salt }] } })) := by
  refine ⟨?_, ?_, ?_, ?_, ?_⟩
  · intro hp
    simp [Wallet.appendTransactionToBatch, hp]
  · intro hp hself
    simp [Wallet.appendTransactionToBatch, hp, hself]
  · intro hp hself hz
    simp [Wallet.appendTransactionToBatch, hp, hself, hz]
  · intro hp hself hz hlt
    have hns : ¬ amount ≤ w.balance := by omega
    simp [Wallet.appendTransactionToBatch, hp, hself, hz, checkedSub, hns]
  · intro hp hself hz hle
    simp [Wallet.appendTransactionToBatch, hp, hself, hz, checkedSub, hle]

/-- Witness for C9, the spec's scenario S6: a wallet with balance 50 asked to
send 100 fails with *Insufficient* and still has balance 50 and an unchanged
(empty) open batch. -/
theorem c9_witness :
    ({ public_key := 1, balance := 50,
       transaction_batch := { fromPk := 1, transactions := [] },
       batch_is_pending := false, balance_proof := [] } : Wallet).appendTransactionToBatch
        2 100 77 =
      (.error .Insufficient,
       { public_key := 1, balance := 50,
         transaction_batch := { fromPk := 1, transactions := [] },
         batch_is_pending := false, balance_proof := [] }) :=
  (c9_append_transaction_contract _ 2 100 77).2.2.2.1 rfl (by decide) (by decide)
    (by decide)

/-- Claim C1 (the code contradicts it): `aggregator.rs::add_signature` in the
`CollectSignatures` state with the `(tx_hash, public_key)` key present stores
the signature and returns `Ok` for every verifier — in particular for a
signature that does not verify against the sender's key over the current
Merkle root (`sigVerify sig public_key r = false`), where the claim demands a
*BadSignature* failure with nothing stored.  The verification call is
commented out in the source (lines 148–150). -/
theorem c1_addSignature_ignores_verification
    (sigVerify : Nat → Nat → Nat → Bool) (h2 : Nat → Nat → Nat)
    (a : OldAggregator) (tx_hash public_key sig r : Nat) (md : TxMetadata)
    (hstate : a.state = .CollectSignatures)
    (hmd : alookup a.tx_hash_to_metadata (tx_hash, public_key) = some md)
    (hroot : a.root h2 = some r)
    (hbad : sigVerify sig public_key r = false) :
    (a.addSignature tx_hash public_key sig).1 = .ok () ∧
    alookup (a.addSignature tx_hash public_key sig).2.tx_hash_to_metadata
        (tx_hash, public_key) = some { md with signature := some sig } := by
  unfold OldAggregator.addSignature
  rw [if_neg (by simp [hstate]), hmd]
  exact ⟨rfl, alookup_aset_self _ _ _ _ hmd⟩

/-- Witness for C1: a concrete `CollectSignatures` aggregator holding the key
`(3, 5)`, a verifier that rejects everything, and signature `9`: the call
returns `Ok` and the unverifiable signature is stored. -/
theorem c1_witness :
    (OldAggregator.addSignature
        { tx_hash_to_metadata := [((3, 5), { index := 0, public_key := 5, signature := none })],
          merkle_leaves := [3], state := .CollectSignatures } 3 5 9).1 = .ok () ∧
    alookup
        (OldAggregator.addSignature
          { tx_hash_to_metadata := [((3, 5), { index := 0, public_key := 5, signature := none })],
            merkle_leaves := [3], state := .CollectSignatures } 3 5 9).2.tx_hash_to_metadata
        (3, 5) = some { index := 0, public_key := 5, signature := some 9 } :=
  c1_addSignature_ignores_verification (fun _ _ _ => false) (fun x _ => x) _ 3 5 9 3
    { index := 0, public_key := 5, signature := none } rfl (by decide)
    (by simp [OldAggregator.root, layerRoot]) rfl

/-- Claim C2: in the `Open` state at most one batch per sender is accepted;
after a successful `add_batch` of `b1`, a second `add_batch` whose batch has
the same `from` fails with the *Duplicate* error and leaves the aggregator —
its leaf set and its metadata — exactly as it was. -/
theorem c2_duplicate_sender_rejected (bh : TransactionBatch → Nat)
    (a a1 : Aggregator) (b1 b2 : TransactionBatch)
    (hsame : b2.fromPk = b1.fromPk)
    (h1 : a.addBatch bh b1 = (.ok (), a1)) :
    a1.addBatch bh b2 = (.error .DuplicateSender, a1) := by
  unfold Aggregator.addBatch at h1 ⊢
  by_cases hstate : a.state = .Open
  · rw [if_neg (by simp [hstate])] at h1
    by_cases hk : (alookup a.tx_hash_to_metadata b1.fromPk).isSome
    · rw [if_pos hk] at h1
      simp at h1
    · rw [if_neg hk] at h1
      have ha1 := (Prod.mk.injEq _ _ _ _).mp h1
      rw [← ha1.2]
      rw [if_neg (by simp [hstate]), if_pos (by rw [hsame]; simp [alookup_append, alookup])]
  · rw [if_pos (by simp [hstate])] at h1
    simp at h1

/-- Witness for C2: a fresh aggregator accepts a batch from sender 4 and then
rejects a second (different) batch from sender 4 unchanged. -/
theorem c2_witness :
    Aggregator.addBatch (fun _ => 11)
        { tx_hash_to_metadata :=
            [(4, { index := 0, batch := { fromPk := 4, transactions := [] },
                   signature := none })],
          merkle_leaves := [11], state := .Open }
        { fromPk := 4, transactions := [{ toPk := 6, fromPk := 4, amount := 1, salt := 0 }] } =
      (.error .DuplicateSender,
        { tx_hash_to_metadata :=
            [(4, { index := 0, batch := { fromPk := 4, transactions := [] },
                   signature := none })],
          merkle_leaves := [11], state := .Open }) :=
  c2_duplicate_sender_rejected (fun _ => 11) Aggregator.new _
    { fromPk := 4, transactions := [] }
    { fromPk := 4, transactions := [{ toPk := 6, fromPk := 4, amount := 1, salt := 0 }] }
    rfl rfl

theorem alookup_isSome_of_mem {κ α : Type} [DecidableEq κ] :
    ∀ (l : List (κ × α)) (kv : κ × α), kv ∈ l → (alookup l kv.1).isSome
  | [], kv => by simp
  | (k1, v1) :: rest, kv => by
    intro hm
    by_cases h : k1 = kv.1
    · simp [alookup, h]
    · rcases List.mem_cons.mp hm with he | ht
      · rw [he] at h
        simp at h
      · simp [alookup, h]
        exact alookup_isSome_of_mem rest kv ht

/-- `merge_balance_proofs` keeps every current entry and adds the sender
entries whose keys are fresh, so a lookup in the merged map is the current
lookup, falling back to the sender lookup. -/
theorem mergeBalanceProofs_alookup :
    ∀ (l cur : BalanceProof) (k : BalanceProofKey),
      alookup (mergeBalanceProofs cur l) k = (alookup cur k).or (alookup l k)
  | [], cur, k => by simp [mergeBalanceProofs, alookup, Option.or_none]
  | kv :: rest, cur, k => by
    rw [mergeBalanceProofs]
    by_cases hc : ((cur.map (fun e => e.1)).contains kv.1 : Bool)
    · rw [if_pos hc, mergeBalanceProofs_alookup rest cur k]
      by_cases hk : kv.1 = k
      · rw [keys_contains_eq_isSome, hk] at hc
        obtain ⟨v, hv⟩ := Option.isSome_iff_exists.mp hc
        simp [hv, alookup, hk, Option.or_some]
      · simp [alookup, hk]
    · rw [if_neg hc, mergeBalanceProofs_alookup rest (cur ++ [kv]) k]
      rw [alookup_append]
      by_cases hk : kv.1 = k
      · rw [keys_contains_eq_isSome] at hc
        have hnone : alookup cur kv.1 = none :=
          Option.not_isSome_iff_eq_none.mp (by simpa using hc)
        rw [hk] at hnone
        simp [alookup, hk, hnone, Option.none_or]
      · simp [alookup, hk, Option.or_none]

/-- Entries whose keys are all already present are all skipped by
`merge_balance_proofs`. -/
theorem mergeBalanceProofs_skip :
    ∀ (l cur : BalanceProof),
      (∀ kv ∈ l, (alookup cur kv.1).isSome) → mergeBalanceProofs cur l = cur
  | [], cur => by
    intro _
    rw [mergeBalanceProofs]
  | kv :: rest, cur => by
    intro h
    rw [mergeBalanceProofs]
    rw [if_pos (by rw [keys_contains_eq_isSome]; exact h kv (by simp))]
    exact mergeBalanceProofs_skip rest cur (fun e he => h e (by simp [he]))

/-- Claim C8 (amended): `merge_balance_proofs` is idempotent — merging a
balance proof into itself returns it unchanged — and is commutative as a
key/value map whenever the two proofs agree on every key they share.  (Without
that agreement commutativity fails: on a shared key the current wallet's entry
wins, see the counterexample.) -/
theorem c8_merge_idempotent_and_agreeing_commutative :
    (∀ A : BalanceProof, mergeBalanceProofs A A = A) ∧
    (∀ A B : BalanceProof,
      (∀ (k : BalanceProofKey) (v w : TransactionProof),
        alookup A k = some v → alookup B k = some w → v = w) →
      ∀ k, alookup (mergeBalanceProofs A B) k = alookup (mergeBalanceProofs B A) k) := by
  constructor
  · intro A
    exact mergeBalanceProofs_skip A A (fun kv hkv => alookup_isSome_of_mem A kv hkv)
  · intro A B hagree k
    rw [mergeBalanceProofs_alookup, mergeBalanceProofs_alookup]
    cases hA : alookup A k with
    | none => simp [Option.none_or, Option.or_none]
    | some v =>
      cases hB : alookup B k with
      | none => simp [Option.none_or, Option.or_none]
      | some w => simp [hagree k v w hA hB, Option.or_some]

/-- Counterexample for C8 as stated: two balance proofs that bind the same key
`(root 0, sender 0)` to different `TransactionProof` values.  Merging B into A
keeps A's value while merging A into B keeps B's value, so the two merges
differ as key/value maps, against the claim's unconditional commutativity. -/
theorem c8_counterexample :
    alookup
        (mergeBalanceProofs
          [({ root := 0, public_key := 0 },
            { proof_hashes := [], root := 0, batch := { fromPk := 0, transactions := [] },
              index := 0, total_leaves := 1 })]
          [({ root := 0, public_key := 0 },
            { proof_hashes := [], root := 1, batch := { fromPk := 0, transactions := [] },
              index := 0, total_leaves := 1 })])
        { root := 0, public_key := 0 } =
      some { proof_hashes := [], root := 0, batch := { fromPk := 0, transactions := [] },
             index := 0, total_leaves := 1 } ∧
    alookup
        (mergeBalanceProofs
          [({ root := 0, public_key := 0 },
            { proof_hashes := [], root := 1, batch := { fromPk := 0, transactions := [] },
              index := 0, total_leaves := 1 })]
          [({ root := 0, public_key := 0 },
            { proof_hashes := [], root := 0, batch := { fromPk := 0, transactions := [] },
              index := 0, total_leaves := 1 })])
        { root := 0, public_key := 0 } =
      some { proof_hashes := [], root := 1, batch := { fromPk := 0, transactions := [] },
             index := 0, total_leaves := 1 } ∧
    ({ proof_hashes := [], root := 0, batch := { fromPk := 0, transactions := [] },
       index := 0, total_leaves := 1 } : TransactionProof) ≠
      { proof_hashes := [], root := 1, batch := { fromPk := 0, transactions := [] },
        index := 0, total_leaves := 1 } := by
  refine ⟨?_, ?_, by decide⟩ <;>
    simp [mergeBalanceProofs, alookup]

/-- Witness for C8: idempotence at a one-entry proof, and map-commutativity
for two one-entry proofs with distinct keys (the agreement hypothesis holds
vacuously). -/
theorem c8_witness :
    mergeBalanceProofs
        [({ root := 0, public_key := 0 },
          { proof_hashes := [], root := 0, batch := { fromPk := 0, transactions := [] },
            index := 0, total_leaves := 1 })]
        [({ root := 0, public_key := 0 },
          { proof_hashes := [], root := 0, batch := { fromPk := 0, transactions := [] },
            index := 0, total_leaves := 1 })] =
      [({ root := 0, public_key := 0 },
        { proof_hashes := [], root := 0, batch := { fromPk := 0, transactions := [] },
          index := 0, total_leaves := 1 })] ∧
    ∀ k, alookup
        (mergeBalanceProofs
          [({ root := 0, public_key := 0 },
            { proof_hashes := [], root := 0, batch := { fromPk := 0, transactions := [] },
              index := 0, total_leaves := 1 })]
          [({ root := 1, public_key := 1 },
            { proof_hashes := [], root := 1, batch := { fromPk := 1, transactions := [] },
              index := 0, total_leaves := 1 })]) k =
      alookup
        (mergeBalanceProofs
          [({ root := 1, public_key := 1 },
            { proof_hashes := [], root := 1, batch := { fromPk := 1, transactions := [] },
              index := 0, total_leaves := 1 })]
          [({ root := 0, public_key := 0 },
            { proof_hashes := [], root := 0, batch := { fromPk := 0, transactions := [] },
              index := 0, total_leaves := 1 })]) k :=
  ⟨c8_merge_idempotent_and_agreeing_commutative.1 _,
    c8_merge_idempotent_and_agreeing_commutative.2 _ _
      (by
        intro k v w hA hB
        by_cases h : ({ root := 0, public_key := 0 } : BalanceProofKey) = k
        · rw [← h] at hB
          simp [alookup] at hB
        · simp [alookup, h] at hA)⟩

/-- Claim C5: `finalise` on a `CollectSignatures` aggregator fails when no
signature was collected; with exactly one collected `(public_key, signature)`
pair the transfer block's signature is `Individual(sig, pk)`; with two or more
it is `Aggregated` over exactly the collected signatures and their keys; and
the returned block carries the current Merkle root. -/
theorem c5_finalise_signature_shape (h2 : Nat → Nat → Nat) (a : Aggregator) (r : Nat)
    (hstate : a.state = .CollectSignatures)
    (hroot : a.root h2 = some r) :
    (a.signedValues = [] →
      (a.finalise h2).1 = .error .NoSignatures ∧ (a.finalise h2).2 = a) ∧
    (∀ pk sig, a.signedValues = [(pk, sig)] →
      (a.finalise h2).1 = .ok { signature := .Individual sig pk, merkle_root := r }) ∧
    (2 ≤ a.signedValues.length →
      (a.finalise h2).1 = .ok
        { signature := .Aggregated (a.signedValues.map (fun v => v.2))
            (a.signedValues.map (fun v => v.1)),
          merkle_root := r }) := by
  refine ⟨?_, ?_, ?_⟩
  · intro hempty
    unfold Aggregator.finalise
    rw [if_neg (by simp [hstate]), if_pos hempty]
    exact ⟨rfl, rfl⟩
  · intro pk sig hone
    unfold Aggregator.finalise
    rw [if_neg (by simp [hstate]), if_neg (by simp [hone]), hroot, hone]
    simp [TransferBlockSignature.new]
  · intro htwo
    unfold Aggregator.finalise
    rw [if_neg (by simp [hstate]),
      if_neg (by intro he; rw [he] at htwo; simp at htwo), hroot]
    match hv : a.signedValues with
    | [] => rw [hv] at htwo; simp at htwo
    | [x] => rw [hv] at htwo; simp at htwo
    | x :: y :: rest =>
      simp [TransferBlockSignature.new, fromSignatures]

/-- Witness for C5: a two-batch `CollectSignatures` aggregator in which both
senders signed finalises into an `Aggregated` block over both signatures and
the root of its two leaves. -/
theorem c5_witness :
    (Aggregator.finalise (fun x y => 10 * x + y)
        { tx_hash_to_metadata :=
            [(1, { index := 0, batch := { fromPk := 1, transactions := [] },
                   signature := some 21 }),
             (2, { index := 1, batch := { fromPk := 2, transactions := [] },
                   signature := some 22 })],
          merkle_leaves := [4, 5], state := .CollectSignatures }).1 =
      .ok { signature := .Aggregated [21, 22] [1, 2], merkle_root := 45 } :=
  (c5_finalise_signature_shape (fun x y => 10 * x + y) _ 45 rfl
      (by simp [Aggregator.root, layerRoot, buildParentLayer])).2.2
    (by simp [Aggregator.signedValues])

theorem layerRoot_isSome (h2 : Nat → Nat → Nat) (l : List Nat) (hl : l ≠ []) :
    (layerRoot h2 l).isSome := by
  generalize hn : l.length = n
  induction n using Nat.strong_induction_on generalizing l with
  | _ n ih =>
    match l, hl with
    | [a], _ => simp [layerRoot]
    | a :: b :: rest, _ =>
      rw [layerRoot_step]
      refine ih (buildParentLayer h2 (a :: b :: rest)).length ?_
        (buildParentLayer h2 (a :: b :: rest)) ?_ rfl
      · rw [buildParentLayer_length]
        simp at hn ⊢
        omega
      · simp [buildParentLayer]

/-- Folding `add_batch` over fresh senders in the `Open` state appends one
metadata entry per batch — keyed by its sender, indexed consecutively from the
current leaf count — and appends one leaf `batch.tx_hash()` per batch, in
order. -/
theorem addBatches_build (bh : TransactionBatch → Nat) :
    ∀ (bs : List TransactionBatch) (a : Aggregator),
      a.state = .Open →
      (∀ b ∈ bs, alookup a.tx_hash_to_metadata b.fromPk = none) →
      (bs.map (fun b => b.fromPk)).Nodup →
      addBatches bh a bs =
        { tx_hash_to_metadata := a.tx_hash_to_metadata ++
            (List.enumFrom a.merkle_leaves.length bs).map
              (fun ib => (ib.2.fromPk,
                { index := ib.1, batch := ib.2, signature := none })),
          merkle_leaves := a.merkle_leaves ++ bs.map bh,
          state := .Open }
  | [], a => by
    intro hstate _ _
    simp [addBatches, List.enumFrom]
    cases a
    simp_all
  | b :: rest, a => by
    intro hstate hkeys hnodup
    have hb : alookup a.tx_hash_to_metadata b.fromPk = none := hkeys b (by simp)
    have hstep : (a.addBatch bh b).2 =
        { tx_hash_to_metadata := a.tx_hash_to_metadata ++
            [(b.fromPk, { index := a.merkle_leaves.length, batch := b, signature := none })],
          merkle_leaves := a.merkle_leaves ++ [bh b],
          state := a.state } := by
      unfold Aggregator.addBatch
      rw [if_neg (by simp [hstate]), if_neg (by simp [hb])]
    have hrest := addBatches_build bh rest (a.addBatch bh b).2
      (by rw [hstep, hstate])
      (by
        intro b' hb'
        rw [hstep]
        simp only []
        rw [alookup_append]
        have h1 : alookup a.tx_hash_to_metadata b'.fromPk = none := hkeys b' (by simp [hb'])
        have h2 : b.fromPk ≠ b'.fromPk := by
          have hmem : b'.fromPk ∈ rest.map (fun x => x.fromPk) :=
            List.mem_map.mpr ⟨b', hb', rfl⟩
          have hnin : b.fromPk ∉ rest.map (fun x => x.fromPk) :=
            (List.nodup_cons.mp hnodup).1
          intro he
          exact hnin (by rw [he]; exact hmem)
        simp [h1, alookup, h2, Option.none_or])
      (List.nodup_cons.mp hnodup).2
    have : addBatches bh a (b :: rest) = addBatches bh (a.addBatch bh b).2 rest := by
      simp [addBatches]
    rw [this, hrest, hstep]
    simp [List.enumFrom, List.append_assoc]

theorem alookup_enum_metadata :
    ∀ (bs : List TransactionBatch) (k j : Nat) (b : TransactionBatch),
      (bs.map (fun x => x.fromPk)).Nodup → bs[j]? = some b →
      alookup
        ((List.enumFrom k bs).map
          (fun ib => (ib.2.fromPk,
            ({ index := ib.1, batch := ib.2, signature := none } : BatchMetadata))))
        b.fromPk = some { index := k + j, batch := b, signature := none }
  | [], k, j, b => by simp
  | hd :: rest, k, j, b => by
    intro hnodup hj
    rcases j with _ | j
    · simp at hj
      simp [List.enumFrom, alookup, hj]
    · simp only [List.getElem?_cons_succ] at hj
      have hmem : b.fromPk ∈ rest.map (fun x => x.fromPk) := by
        have : b ∈ rest := by
          rcases List.getElem?_eq_some.mp hj with ⟨hlt, he⟩
          exact he ▸ List.getElem_mem hlt
        exact List.mem_map.mpr ⟨b, this, rfl⟩
      have hne : hd.fromPk ≠ b.fromPk := by
        intro he
        have hnin : hd.fromPk ∉ rest.map (fun x => x.fromPk) :=
          (List.nodup_cons.mp hnodup).1
        exact hnin (by rw [he]; exact hmem)
      have ih := alookup_enum_metadata rest (k + 1) j b (List.nodup_cons.mp hnodup).2 hj
      simp [List.enumFrom, alookup, hne]
      rw [ih]
      congr 1
      simp
      omega

/-- Claim C6: for every non-empty sequence of batches with pairwise distinct
senders added to a fresh aggregator, after `start_collecting_signatures` the
inclusion proof generated for each inserted batch's sender carries that batch
and its assigned leaf index, reconstructs the aggregator's root, and therefore
`TransactionProof::verify()` returns `true` — for every choice of the hash
functions `h2` (node compression) and `bh` (batch hashing). -/
theorem c6_merkle_round_trip (h2 : Nat → Nat → Nat) (bh : TransactionBatch → Nat)
    (bs : List TransactionBatch) (hne : bs ≠ [])
    (hnodup : (bs.map (fun x => x.fromPk)).Nodup) :
    ∀ b ∈ bs, ∃ (p : TransactionProof) (j : Nat),
      ((addBatches bh Aggregator.new bs).startCollectingSignatures).2.generateProofForPubkey
        h2 b.fromPk = .ok p ∧
      p.batch = b ∧ bs[j]? = some b ∧ p.index = j ∧ p.total_leaves = bs.length ∧
      ((addBatches bh Aggregator.new bs).startCollectingSignatures).2.root h2 = some p.root ∧
      p.verify h2 bh = true := by
  intro b hmem
  have hbuild := addBatches_build bh bs Aggregator.new rfl
    (by intro _ _; simp [Aggregator.new, alookup]) hnodup
  obtain ⟨j, hjlt, hj⟩ := List.getElem_of_mem hmem
  have hj? : bs[j]? = some b := by rw [List.getElem?_eq_getElem hjlt, hj]
  have hstart : ((addBatches bh Aggregator.new bs).startCollectingSignatures).2 =
      { tx_hash_to_metadata := (addBatches bh Aggregator.new bs).tx_hash_to_metadata,
        merkle_leaves := (addBatches bh Aggregator.new bs).merkle_leaves,
        state := .CollectSignatures } := by
    unfold Aggregator.startCollectingSignatures
    rw [if_neg (by rw [hbuild]; simp)]
  have hleaves : (addBatches bh Aggregator.new bs).merkle_leaves = bs.map bh := by
    rw [hbuild]
    simp [Aggregator.new]
  have hmeta := alookup_enum_metadata bs 0 j b hnodup hj?
  have hlookup : alookup (addBatches bh Aggregator.new bs).tx_hash_to_metadata b.fromPk
      = some { index := j, batch := b, signature := none } := by
    rw [hbuild]
    simpa [Aggregator.new, alookup] using hmeta
  have hlne : (bs.map bh) ≠ [] := by simp [hne]
  obtain ⟨r, hr⟩ := Option.isSome_iff_exists.mp (layerRoot_isSome h2 (bs.map bh) hlne)
  have hleaf : (bs.map bh)[j]? = some (bh b) := by
    rw [List.getElem?_map, hj?]
    rfl
  have hverify := computeProofRoot_proofHashes h2 (bs.map bh) j (bh b) hleaf
  refine ⟨{ proof_hashes := proofHashesForIndex h2 (bs.map bh) j, root := r, batch := b,
            index := j, total_leaves := (bs.map bh).length }, j,
    ?_, rfl, hj?, rfl, by simp, ?_, ?_⟩
  · unfold Aggregator.generateProofForPubkey Aggregator.root
    rw [hstart]
    dsimp only
    rw [if_neg (by simp), hlookup, hleaves, hr]
  · unfold Aggregator.root
    rw [hstart]
    dsimp only
    rw [hleaves]
    exact hr
  · unfold TransactionProof.verify
    dsimp only
    rw [hverify, hr]
    simp

/-- Witness for C6: two batches from senders 1 and 2 under concrete hash
functions; the proof generated for sender 2's batch carries that batch and
verifies. -/
theorem c6_witness :
    ∃ (p : TransactionProof) (j : Nat),
      ((addBatches (fun tb => tb.fromPk) Aggregator.new
            [{ fromPk := 1, transactions := [] },
             { fromPk := 2, transactions := [] }]).startCollectingSignatures).2.generateProofForPubkey
          (fun x y => 10 * x + y)
          ({ fromPk := 2, transactions := [] } : TransactionBatch).fromPk = .ok p ∧
      p.batch = { fromPk := 2, transactions := [] } ∧
      ([{ fromPk := 1, transactions := [] },
        { fromPk := 2, transactions := [] }] : List TransactionBatch)[j]? =
        some { fromPk := 2, transactions := [] } ∧
      p.index = j ∧
      p.total_leaves =
        ([{ fromPk := 1, transactions := [] },
          { fromPk := 2, transactions := [] }] : List TransactionBatch).length ∧
      ((addBatches (fun tb => tb.fromPk) Aggregator.new
          [{ fromPk := 1, transactions := [] },
           { fromPk := 2, transactions := [] }]).startCollectingSignatures).2.root
        (fun x y => 10 * x + y) = some p.root ∧
      p.verify (fun x y => 10 * x + y) (fun tb => tb.fromPk) = true :=
  c6_merkle_round_trip (fun x y => 10 * x + y) (fun tb => tb.fromPk)
    [{ fromPk := 1, transactions := [] }, { fromPk := 2, transactions := [] }]
    (by decide) (by decide) { fromPk := 2, transactions := [] } (by decide)

/-! ## Lemmas about the balance-proof validator -/

/-- A proof whose Merkle path is empty over a one-leaf tree verifies exactly
when its batch hash equals its stored root. -/
theorem verify_singleton_proof (h2 : Nat → Nat → Nat) (bh : TransactionBatch → Nat)
    (b : TransactionBatch) (r : Nat) :
    TransactionProof.verify h2 bh
      { proof_hashes := [], root := r, batch := b, index := 0, total_leaves := 1 } =
      decide (bh b = r) := by
  unfold TransactionProof.verify
  dsimp only
  rw [computeProofRoot_base h2 0 1 (bh b) (by omega)]
  simp

theorem entryCheck_ne_none_of_noblock (h2 : Nat → Nat → Nat)
    (bh : TransactionBatch → Nat) (sigVerify : Nat → Nat → Nat → Bool)
    (view : RollupState) (p : TransactionProof)
    (hnb : view.getTransferBlockForMerkleRootAndPubkey p.root p.batch.fromPk = none) :
    entryCheck h2 bh sigVerify view p ≠ none := by
  unfold entryCheck
  by_cases hv : p.verify h2 bh
  · rw [if_neg (by simp [hv]), hnb]
    simp
  · rw [if_pos (by simp [hv])]
    simp

theorem collectDeltas_not_ok (h2 : Nat → Nat → Nat) (bh : TransactionBatch → Nat)
    (sigVerify : Nat → Nat → Nat → Bool) (view : RollupState) :
    ∀ (proofs : List TransactionProof) (delta : List (Nat × Int))
      (p : TransactionProof), p ∈ proofs →
      entryCheck h2 bh sigVerify view p ≠ none →
      ∀ d, collectDeltas h2 bh sigVerify view proofs delta ≠ .ok d
  | [], delta, p => by simp
  | q :: rest, delta, p => by
    intro hmem hbad d
    rw [collectDeltas]
    cases hq : entryCheck h2 bh sigVerify view q with
    | some e => simp
    | none =>
      rcases List.mem_cons.mp hmem with he | ht
      · rw [he] at hbad
        exact absurd hq hbad
      · exact collectDeltas_not_ok h2 bh sigVerify view rest _ p ht hbad d

theorem collectDeltas_first_error (h2 : Nat → Nat → Nat) (bh : TransactionBatch → Nat)
    (sigVerify : Nat → Nat → Nat → Bool) (view : RollupState) :
    ∀ (pre : List TransactionProof) (p : TransactionProof)
      (post : List TransactionProof) (delta : List (Nat × Int)) (e : ValError),
      (∀ q ∈ pre, entryCheck h2 bh sigVerify view q = none) →
      entryCheck h2 bh sigVerify view p = some e →
      collectDeltas h2 bh sigVerify view (pre ++ p :: post) delta = .error e
  | [], p, post, delta, e => by
    intro _ hp
    rw [List.nil_append, collectDeltas, hp]
  | q :: rest, p, post, delta, e => by
    intro hpre hp
    rw [List.cons_append, collectDeltas, hpre q (by simp)]
    exact collectDeltas_first_error h2 bh sigVerify view rest p post _ e
      (fun x hx => hpre x (by simp [hx])) hp

/-- Claim C4 (amended): an entry of the balance proof whose `(root, sender)`
pair has no matching transfer block in the settlement view makes the validator
fail; and the error is `BatchNotInATransferBlock` carrying exactly the
offending entry's batch whenever every entry iterated before it passes its
checks and the offending entry's own Merkle proof verifies.  (When an earlier
entry already fails, the validator reports that earlier entry's error instead
— see the counterexample.) -/
theorem c4_missing_block_rejected (h2 : Nat → Nat → Nat) (bh : TransactionBatch → Nat)
    (sigVerify : Nat → Nat → Nat → Bool) (view : RollupState) :
    (∀ (bp : BalanceProof) (e : BalanceProofKey × TransactionProof), e ∈ bp →
      view.getTransferBlockForMerkleRootAndPubkey e.2.root e.2.batch.fromPk = none →
      ∀ m, calculateBalancesAndValidateBalanceProof h2 bh sigVerify view bp ≠ .ok m) ∧
    (∀ (pre post : BalanceProof) (k : BalanceProofKey) (p : TransactionProof),
      (∀ q ∈ pre, entryCheck h2 bh sigVerify view q.2 = none) →
      p.verify h2 bh = true →
      view.getTransferBlockForMerkleRootAndPubkey p.root p.batch.fromPk = none →
      calculateBalancesAndValidateBalanceProof h2 bh sigVerify view (pre ++ (k, p) :: post) =
        .error (.BatchNotInATransferBlock p.batch)) := by
  constructor
  · intro bp e hmem hnb m
    unfold calculateBalancesAndValidateBalanceProof calculateBalancesFromProofs
    cases hcd : collectDeltas h2 bh sigVerify view (bp.map (fun kv => kv.2)) [] with
    | error er => simp
    | ok d =>
      exact absurd hcd
        (collectDeltas_not_ok h2 bh sigVerify view _ [] e.2
          (List.mem_map.mpr ⟨e, hmem, rfl⟩)
          (entryCheck_ne_none_of_noblock h2 bh sigVerify view e.2 hnb) d)
  · intro pre post k p hpre hv hnb
    have hcheck : entryCheck h2 bh sigVerify view p =
        some (.BatchNotInATransferBlock p.batch) := by
      unfold entryCheck
      rw [if_neg (by simp [hv]), hnb]
    unfold calculateBalancesAndValidateBalanceProof calculateBalancesFromProofs
    rw [List.map_append, List.map_cons]
    rw [collectDeltas_first_error h2 bh sigVerify view (pre.map (fun kv => kv.2)) p
      (post.map (fun kv => kv.2)) [] _
      (fun q hq => by
        obtain ⟨q0, hq0, he⟩ := List.mem_map.mp hq
        rw [← he]
        exact hpre q0 hq0)
      hcheck]

/-- Counterexample for C4 as stated: a settlement view with no transfer blocks
and a balance proof holding two entries, both lacking a matching block, with
distinct batches (senders 1 and 2).  The validator reports the first entry's
batch, so for the second entry the claim's "carrying exactly that entry's
batch" fails — a validator run returns only one witness batch. -/
theorem c4_counterexample :
    (({ root := 2, public_key := 2 },
      ({ proof_hashes := [], root := 2, batch := { fromPk := 2, transactions := [] },
         index := 0, total_leaves := 1 } : TransactionProof)) ∈
      ([({ root := 1, public_key := 1 },
         { proof_hashes := [], root := 1, batch := { fromPk := 1, transactions := [] },
           index := 0, total_leaves := 1 }),
        ({ root := 2, public_key := 2 },
         { proof_hashes := [], root := 2, batch := { fromPk := 2, transactions := [] },
           index := 0, total_leaves := 1 })] : BalanceProof)) ∧
    RollupState.getTransferBlockForMerkleRootAndPubkey
      { deposit_totals := [], withdraw_totals := [], transfer_blocks := [] } 2 2 = none ∧
    calculateBalancesAndValidateBalanceProof (fun x _ => x) (fun tb => tb.fromPk)
        (fun _ _ _ => true)
        { deposit_totals := [], withdraw_totals := [], transfer_blocks := [] }
        [({ root := 1, public_key := 1 },
          { proof_hashes := [], root := 1, batch := { fromPk := 1, transactions := [] },
            index := 0, total_leaves := 1 }),
         ({ root := 2, public_key := 2 },
          { proof_hashes := [], root := 2, batch := { fromPk := 2, transactions := [] },
            index := 0, total_leaves := 1 })] =
      .error (.BatchNotInATransferBlock { fromPk := 1, transactions := [] }) ∧
    ValError.BatchNotInATransferBlock ({ fromPk := 1, transactions := [] } : TransactionBatch) ≠
      .BatchNotInATransferBlock { fromPk := 2, transactions := [] } := by
  refine ⟨by decide, rfl, ?_, by decide⟩
  unfold calculateBalancesAndValidateBalanceProof calculateBalancesFromProofs
  rw [List.map_cons, collectDeltas]
  rw [show entryCheck (fun x _ => x) (fun tb => tb.fromPk) (fun _ _ _ => true)
      { deposit_totals := [], withdraw_totals := [], transfer_blocks := [] }
      { proof_hashes := [], root := 1, batch := { fromPk := 1, transactions := [] },
        index := 0, total_leaves := 1 } =
      some (.BatchNotInATransferBlock { fromPk := 1, transactions := [] }) from by
    unfold entryCheck
    rw [if_neg (by rw [verify_singleton_proof]; simp)]
    rfl]

/-- Witness for C4: a single-entry balance proof whose proof verifies but has
no matching block in an empty settlement view is rejected with
`BatchNotInATransferBlock` carrying exactly its batch. -/
theorem c4_witness :
    calculateBalancesAndValidateBalanceProof (fun x _ => x) (fun tb => tb.fromPk)
        (fun _ _ _ => true)
        { deposit_totals := [], withdraw_totals := [], transfer_blocks := [] }
        ([] ++ ({ root := 1, public_key := 1 },
          ({ proof_hashes := [], root := 1, batch := { fromPk := 1, transactions := [] },
             index := 0, total_leaves := 1 } : TransactionProof)) :: []) =
      .error (.BatchNotInATransferBlock { fromPk := 1, transactions := [] }) :=
  (c4_missing_block_rejected (fun x _ => x) (fun tb => tb.fromPk) (fun _ _ _ => true)
      { deposit_totals := [], withdraw_totals := [], transfer_blocks := [] }).2
    [] [] { root := 1, public_key := 1 }
    { proof_hashes := [], root := 1, batch := { fromPk := 1, transactions := [] },
      index := 0, total_leaves := 1 }
    (by simp) (by rw [verify_singleton_proof]; simp) rfl

theorem alookup_balances_map (view : RollupState) :
    ∀ (delta : List (Nat × Int)) (q : Nat),
      alookup
        (delta.map (fun pd =>
          (pd.1, (pd.2 + (view.depositAmount pd.1 : Int) -
            (view.withdrawAmount pd.1 : Int)).toNat))) q =
      (alookup delta q).map (fun d =>
        (d + (view.depositAmount q : Int) - (view.withdrawAmount q : Int)).toNat)
  | [], q => by simp [alookup]
  | (k, v) :: rest, q => by
    by_cases h : k = q
    · subst h
      simp [alookup]
    · simp only [List.map_cons, alookup, if_neg h]
      exact alookup_balances_map view rest q

theorem alookup_of_mem_nodup {κ α : Type} [DecidableEq κ] :
    ∀ (l : List (κ × α)), (l.map (fun kv => kv.1)).Nodup →
      ∀ pd ∈ l, alookup l pd.1 = some pd.2
  | [] => by simp
  | (k, v) :: rest => by
    intro hnodup pd hmem
    rcases List.mem_cons.mp hmem with he | ht
    · rw [he]
      simp [alookup]
    · have hk : k ≠ pd.1 := by
        intro he
        have hnin : k ∉ rest.map (fun kv => kv.1) := (List.nodup_cons.mp hnodup).1
        exact hnin (by rw [he]; exact List.mem_map.mpr ⟨pd, ht, rfl⟩)
      simp [alookup, hk]
      exact alookup_of_mem_nodup rest (List.nodup_cons.mp hnodup).2 pd ht

theorem bumpDelta_mem_keys (q pk : Nat) (d : Int) :
    ∀ m : List (Nat × Int),
      (q ∈ (bumpDelta m pk d).map (fun kv => kv.1)) ↔
        q ∈ m.map (fun kv => kv.1) ∨ q = pk
  | [] => by simp [bumpDelta, eq_comm]
  | (k, v) :: rest => by
    by_cases h : k = pk <;>
      simp [bumpDelta, h, bumpDelta_mem_keys q pk d rest] <;>
      tauto

theorem bumpDelta_keys_nodup (pk : Nat) (d : Int) :
    ∀ m : List (Nat × Int), (m.map (fun kv => kv.1)).Nodup →
      ((bumpDelta m pk d).map (fun kv => kv.1)).Nodup
  | [] => by simp [bumpDelta]
  | (k, v) :: rest => by
    intro hnodup
    by_cases h : k = pk
    · simpa [bumpDelta, h] using hnodup
    · have h1 : k ∉ (bumpDelta rest pk d).map (fun kv => kv.1) := by
        intro hmem
        rcases (bumpDelta_mem_keys k pk d rest).mp hmem with hm | he
        · exact (List.nodup_cons.mp hnodup).1 hm
        · exact h he
      have hrec := bumpDelta_keys_nodup pk d rest (List.nodup_cons.mp hnodup).2
      rw [show bumpDelta ((k, v) :: rest) pk d = (k, v) :: bumpDelta rest pk d from by
        simp [bumpDelta, h]]
      rw [List.map_cons]
      exact List.nodup_cons.mpr ⟨h1, hrec⟩

theorem applyBatch_keys_nodup (b : TransactionBatch) :
    ∀ (txs : List SimpleTransaction) (delta : List (Nat × Int)),
      (delta.map (fun kv => kv.1)).Nodup →
      ((txs.foldl
          (fun d t => bumpDelta (bumpDelta d b.fromPk (-(t.amount : Int))) t.toPk
            (t.amount : Int)) delta).map (fun kv => kv.1)).Nodup
  | [], delta => by
    intro h
    simpa using h
  | t :: rest, delta => by
    intro hnodup
    exact applyBatch_keys_nodup b rest _
      (bumpDelta_keys_nodup _ _ _ (bumpDelta_keys_nodup _ _ _ hnodup))

theorem collectDeltas_keys_nodup (h2 : Nat → Nat → Nat) (bh : TransactionBatch → Nat)
    (sigVerify : Nat → Nat → Nat → Bool) (view : RollupState) :
    ∀ (proofs : List TransactionProof) (delta0 d : List (Nat × Int)),
      (delta0.map (fun kv => kv.1)).Nodup →
      collectDeltas h2 bh sigVerify view proofs delta0 = .ok d →
      (d.map (fun kv => kv.1)).Nodup
  | [], delta0, d => by
    intro h0 hok
    rw [collectDeltas] at hok
    cases hok
    exact h0
  | p :: rest, delta0, d => by
    intro h0 hok
    rw [collectDeltas] at hok
    cases hq : entryCheck h2 bh sigVerify view p with
    | some e => rw [hq] at hok; cases hok
    | none =>
      rw [hq] at hok
      exact collectDeltas_keys_nodup h2 bh sigVerify view rest _ d
        (applyBatch_keys_nodup p.batch p.batch.transactions delta0 h0) hok

theorem finaliseBalances_ok_inv (view : RollupState) :
    ∀ (delta : List (Nat × Int)) (m : List (Nat × Nat)),
      finaliseBalances view delta = .ok m →
      (∀ pd ∈ delta,
        0 ≤ pd.2 + (view.depositAmount pd.1 : Int) - (view.withdrawAmount pd.1 : Int) ∧
        pd.2 + (view.depositAmount pd.1 : Int) - (view.withdrawAmount pd.1 : Int) <
          (u64Bound : Int)) ∧
      m = delta.map (fun pd =>
        (pd.1, (pd.2 + (view.depositAmount pd.1 : Int) -
          (view.withdrawAmount pd.1 : Int)).toNat))
  | [], m => by
    intro hok
    rw [finaliseBalances] at hok
    cases hok
    simp
  | (pk, amt) :: rest, m => by
    intro hok
    rw [finaliseBalances] at hok
    by_cases hbad : amt + (view.depositAmount pk : Int) - (view.withdrawAmount pk : Int) < 0 ∨
        (u64Bound : Int) ≤ amt + (view.depositAmount pk : Int) - (view.withdrawAmount pk : Int)
    · rw [if_pos hbad] at hok
      cases hok
    · rw [if_neg hbad] at hok
      cases hr : finaliseBalances view rest with
      | error e => rw [hr] at hok; cases hok
      | ok m' =>
        rw [hr] at hok
        cases hok
        have ih := finaliseBalances_ok_inv view rest m' hr
        constructor
        · intro pd hpd
          rcases List.mem_cons.mp hpd with he | ht
          · rw [he]
            dsimp only
            constructor <;> omega
          · exact ih.1 pd ht
        · simp [ih.2]

theorem finaliseBalances_not_ok (view : RollupState) (delta : List (Nat × Int))
    (pd : Nat × Int) (hmem : pd ∈ delta)
    (hbad : pd.2 + (view.depositAmount pd.1 : Int) - (view.withdrawAmount pd.1 : Int) < 0 ∨
      (u64Bound : Int) ≤ pd.2 + (view.depositAmount pd.1 : Int) -
        (view.withdrawAmount pd.1 : Int)) :
    ∀ m, finaliseBalances view delta ≠ .ok m := by
  intro m hok
  have := (finaliseBalances_ok_inv view delta m hok).1 pd hmem
  omega

/-- Claim C3 (amended): with `delta` the accumulated signed per-account sums
of the balance proof, the validator fails whenever some account's
`delta + deposits - withdrawals` is negative — or (the amendment) is at least
`2^64`, since the source converts the `i128` via `try_into::<u64>()` — and a
successful run binds every accumulated account to exactly that value, which is
therefore never negative. -/
theorem c3_balances_formula (h2 : Nat → Nat → Nat) (bh : TransactionBatch → Nat)
    (sigVerify : Nat → Nat → Nat → Bool) (view : RollupState) (bp : BalanceProof)
    (delta : List (Nat × Int))
    (hdelta : collectDeltas h2 bh sigVerify view (bp.map (fun kv => kv.2)) [] = .ok delta) :
    ((∃ pd ∈ delta,
        pd.2 + (view.depositAmount pd.1 : Int) - (view.withdrawAmount pd.1 : Int) < 0 ∨
        (u64Bound : Int) ≤ pd.2 + (view.depositAmount pd.1 : Int) -
          (view.withdrawAmount pd.1 : Int)) →
      ∀ m, calculateBalancesAndValidateBalanceProof h2 bh sigVerify view bp ≠ .ok m) ∧
    (∀ m, calculateBalancesAndValidateBalanceProof h2 bh sigVerify view bp = .ok m →
      ∀ pd ∈ delta,
        0 ≤ pd.2 + (view.depositAmount pd.1 : Int) - (view.withdrawAmount pd.1 : Int) ∧
        alookup m pd.1 = some ((pd.2 + (view.depositAmount pd.1 : Int) -
          (view.withdrawAmount pd.1 : Int)).toNat)) := by
  have hcalc : calculateBalancesAndValidateBalanceProof h2 bh sigVerify view bp =
      finaliseBalances view delta := by
    unfold calculateBalancesAndValidateBalanceProof calculateBalancesFromProofs
    rw [hdelta]
  constructor
  · intro ⟨pd, hmem, hbad⟩ m
    rw [hcalc]
    exact finaliseBalances_not_ok view delta pd hmem hbad m
  · intro m hok pd hmem
    rw [hcalc] at hok
    have hinv := finaliseBalances_ok_inv view delta m hok
    have hnodup := collectDeltas_keys_nodup h2 bh sigVerify view _ [] delta (by simp) hdelta
    refine ⟨(hinv.1 pd hmem).1, ?_⟩
    rw [hinv.2, alookup_balances_map, alookup_of_mem_nodup delta hnodup pd hmem]
    rfl

/-- Counterexample for C3 as stated: one committed batch sends
`u64::MAX = 2^64 - 1` from account 1 to account 2, and account 2 holds a
deposit of 1.  Account 2's accumulated value `delta + deposits - withdrawals`
is `2^64` — non-negative, so the claim requires the returned map to bind
account 2 to it — but the source's `try_into::<u64>()` fails above `u64::MAX`
and the validator errors. -/
theorem c3_counterexample :
    collectDeltas (fun x _ => x) (fun _ => 5) (fun _ _ _ => true)
        { deposit_totals := [(1, 18446744073709551615), (2, 1)], withdraw_totals := [],
          transfer_blocks := [{ signature := .Individual 0 1, merkle_root := 5 }] }
        (([({ root := 5, public_key := 1 },
            { proof_hashes := [], root := 5,
              batch := { fromPk := 1, transactions :=
                [{ toPk := 2, fromPk := 1, amount := 18446744073709551615, salt := 0 }] },
              index := 0, total_leaves := 1 })] : BalanceProof).map (fun kv => kv.2)) [] =
      .ok [(1, -(18446744073709551615 : Int)), (2, (18446744073709551615 : Int))] ∧
    (0 : Int) ≤ (18446744073709551615 : Int) +
      (({ deposit_totals := [(1, 18446744073709551615), (2, 1)], withdraw_totals := [],
          transfer_blocks := [{ signature := .Individual 0 1, merkle_root := 5 }]
        } : RollupState).depositAmount 2 : Int) -
      (({ deposit_totals := [(1, 18446744073709551615), (2, 1)], withdraw_totals := [],
          transfer_blocks := [{ signature := .Individual 0 1, merkle_root := 5 }]
        } : RollupState).withdrawAmount 2 : Int) ∧
    calculateBalancesAndValidateBalanceProof (fun x _ => x) (fun _ => 5) (fun _ _ _ => true)
        { deposit_totals := [(1, 18446744073709551615), (2, 1)], withdraw_totals := [],
          transfer_blocks := [{ signature := .Individual 0 1, merkle_root := 5 }] }
        [({ root := 5, public_key := 1 },
          { proof_hashes := [], root := 5,
            batch := { fromPk := 1, transactions :=
              [{ toPk := 2, fromPk := 1, amount := 18446744073709551615, salt := 0 }] },
            index := 0, total_leaves := 1 })] =
      .error (.BalanceNegative 2) := by
  have hcheck : entryCheck (fun x _ => x) (fun _ => 5) (fun _ _ _ => true)
      { deposit_totals := [(1, 18446744073709551615), (2, 1)], withdraw_totals := [],
        transfer_blocks := [{ signature := .Individual 0 1, merkle_root := 5 }] }
      { proof_hashes := [], root := 5,
        batch := { fromPk := 1, transactions :=
          [{ toPk := 2, fromPk := 1, amount := 18446744073709551615, salt := 0 }] },
        index := 0, total_leaves := 1 } = none := by
    unfold entryCheck
    rw [if_neg (by rw [verify_singleton_proof]; simp)]
    rfl
  refine ⟨?_, by decide, ?_⟩
  · rw [List.map_cons, collectDeltas, hcheck]
    rfl
  · unfold calculateBalancesAndValidateBalanceProof calculateBalancesFromProofs
    rw [List.map_cons, collectDeltas, hcheck]
    rfl

/-- Witness for C3: account 1 (deposit 10) sends 7 to account 2 in a committed
batch; the validator accepts and binds account 2 to exactly its accumulated
value 7, which is non-negative. -/
theorem c3_witness :
    (0 : Int) ≤ (7 : Int) +
      (({ deposit_totals := [(1, 10)], withdraw_totals := [],
          transfer_blocks := [{ signature := .Individual 0 1, merkle_root := 5 }]
        } : RollupState).depositAmount 2 : Int) -
      (({ deposit_totals := [(1, 10)], withdraw_totals := [],
          transfer_blocks := [{ signature := .Individual 0 1, merkle_root := 5 }]
        } : RollupState).withdrawAmount 2 : Int) ∧
    alookup [(1, 3), (2, 7)] 2 = some (((7 : Int) +
      (({ deposit_totals := [(1, 10)], withdraw_totals := [],
          transfer_blocks := [{ signature := .Individual 0 1, merkle_root := 5 }]
        } : RollupState).depositAmount 2 : Int) -
      (({ deposit_totals := [(1, 10)], withdraw_totals := [],
          transfer_blocks := [{ signature := .Individual 0 1, merkle_root := 5 }]
        } : RollupState).withdrawAmount 2 : Int)).toNat) := by
  have hcheck : entryCheck (fun x _ => x) (fun _ => 5) (fun _ _ _ => true)
      { deposit_totals := [(1, 10)], withdraw_totals := [],
        transfer_blocks := [{ signature := .Individual 0 1, merkle_root := 5 }] }
      { proof_hashes := [], root := 5,
        batch := { fromPk := 1, transactions :=
          [{ toPk := 2, fromPk := 1, amount := 7, salt := 0 }] },
        index := 0, total_leaves := 1 } = none := by
    unfold entryCheck
    rw [if_neg (by rw [verify_singleton_proof]; simp)]
    rfl
  have hdelta : collectDeltas (fun x _ => x) (fun _ => 5) (fun _ _ _ => true)
      { deposit_totals := [(1, 10)], withdraw_totals := [],
        transfer_blocks := [{ signature := .Individual 0 1, merkle_root := 5 }] }
      (([({ root := 5, public_key := 1 },
          { proof_hashes := [], root := 5,
            batch := { fromPk := 1, transactions :=
              [{ toPk := 2, fromPk := 1, amount := 7, salt := 0 }] },
            index := 0, total_leaves := 1 })] : BalanceProof).map (fun kv => kv.2)) [] =
      .ok [(1, (-7 : Int)), (2, (7 : Int))] := by
    rw [List.map_cons, collectDeltas, hcheck]
    rfl
  have hok : calculateBalancesAndValidateBalanceProof (fun x _ => x) (fun _ => 5)
      (fun _ _ _ => true)
      { deposit_totals := [(1, 10)], withdraw_totals := [],
        transfer_blocks := [{ signature := .Individual 0 1, merkle_root := 5 }] }
      [({ root := 5, public_key := 1 },
        { proof_hashes := [], root := 5,
          batch := { fromPk := 1, transactions :=
            [{ toPk := 2, fromPk := 1, amount := 7, salt := 0 }] },
          index := 0, total_leaves := 1 })] = .ok [(1, 3), (2, 7)] := by
    unfold calculateBalancesAndValidateBalanceProof calculateBalancesFromProofs
    rw [List.map_cons, collectDeltas, hcheck]
    rfl
  exact (c3_balances_formula (fun x _ => x) (fun _ => 5) (fun _ _ _ => true) _ _ _ hdelta).2
    [(1, 3), (2, 7)] hok (2, 7) (by decide)

theorem bumpDelta_value_sum (pk : Nat) (d : Int) :
    ∀ m : List (Nat × Int),
      ((bumpDelta m pk d).map (fun kv => kv.2)).sum = (m.map (fun kv => kv.2)).sum + d
  | [] => by simp [bumpDelta]
  | (k, v) :: rest => by
    by_cases h : k = pk
    · simp [bumpDelta, h]
      ring
    · simp [bumpDelta, h, bumpDelta_value_sum pk d rest]
      ring

theorem applyBatch_value_sum (b : TransactionBatch) :
    ∀ (txs : List SimpleTransaction) (delta : List (Nat × Int)),
      ((txs.foldl
          (fun d t => bumpDelta (bumpDelta d b.fromPk (-(t.amount : Int))) t.toPk
            (t.amount : Int)) delta).map (fun kv => kv.2)).sum =
        (delta.map (fun kv => kv.2)).sum
  | [], delta => by simp
  | t :: rest, delta => by
    rw [List.foldl_cons, applyBatch_value_sum b rest]
    rw [bumpDelta_value_sum, bumpDelta_value_sum]
    ring

theorem collectDeltas_value_sum (h2 : Nat → Nat → Nat) (bh : TransactionBatch → Nat)
    (sigVerify : Nat → Nat → Nat → Bool) (view : RollupState) :
    ∀ (proofs : List TransactionProof) (delta0 d : List (Nat × Int)),
      collectDeltas h2 bh sigVerify view proofs delta0 = .ok d →
      (d.map (fun kv => kv.2)).sum = (delta0.map (fun kv => kv.2)).sum
  | [], delta0, d => by
    intro hok
    rw [collectDeltas] at hok
    cases hok
    rfl
  | p :: rest, delta0, d => by
    intro hok
    rw [collectDeltas] at hok
    cases hq : entryCheck h2 bh sigVerify view p with
    | some e => rw [hq] at hok; cases hok
    | none =>
      rw [hq] at hok
      rw [collectDeltas_value_sum h2 bh sigVerify view rest _ d hok]
      exact applyBatch_value_sum p.batch p.batch.transactions delta0

theorem alookup_eq_none_of_not_mem_keys {κ α : Type} [DecidableEq κ] :
    ∀ (m : List (κ × α)) (k : κ), k ∉ m.map (fun kv => kv.1) → alookup m k = none
  | [], k => by simp [alookup]
  | (k1, v) :: rest, k => by
    intro hmem
    have h1 : ¬ k1 = k := by
      intro he
      exact hmem (by rw [he]; simp)
    have h2 : k ∉ rest.map (fun kv => kv.1) := by
      intro hm
      exact hmem (by simp [hm])
    simp only [alookup, if_neg h1]
    exact alookup_eq_none_of_not_mem_keys rest k h2

/-- The total of an association map with distinct keys is the sum of its
lookups over its key set. -/
theorem assoc_value_sum :
    ∀ m : List (Nat × Nat), (m.map (fun kv => kv.1)).Nodup →
      (m.map (fun kv => kv.2)).sum =
        ((m.map (fun kv => kv.1)).toFinset).sum (fun k => (alookup m k).getD 0)
  | [] => by simp
  | (k, v) :: rest => by
    intro hnodup
    have hk : k ∉ rest.map (fun kv => kv.1) := (List.nodup_cons.mp hnodup).1
    have ih := assoc_value_sum rest (List.nodup_cons.mp hnodup).2
    rw [List.map_cons, List.map_cons, List.sum_cons, List.toFinset_cons]
    rw [Finset.sum_insert (by simpa using hk)]
    rw [show (alookup ((k, v) :: rest) k).getD 0 = v from by simp [alookup]]
    rw [ih]
    congr 1
    apply Finset.sum_congr rfl
    intro x hx
    have hxk : k ≠ x := by
      intro he
      rw [← he] at hx
      exact hk (by simpa using hx)
    simp [alookup, hxk]

/-- Summing the clamped (`Int.toNat`) balances over the accumulator equals the
signed sum when every balance is non-negative. -/
theorem sum_toNat_balances (view : RollupState) :
    ∀ delta : List (Nat × Int),
      (∀ pd ∈ delta,
        0 ≤ pd.2 + (view.depositAmount pd.1 : Int) - (view.withdrawAmount pd.1 : Int)) →
      (((delta.map (fun pd =>
          (pd.1, (pd.2 + (view.depositAmount pd.1 : Int) -
            (view.withdrawAmount pd.1 : Int)).toNat))).map (fun kv => kv.2)).sum : Int) =
        (delta.map (fun pd =>
          pd.2 + (view.depositAmount pd.1 : Int) -
            (view.withdrawAmount pd.1 : Int))).sum
  | [] => by simp
  | pd :: rest => by
    intro h
    have h0 := h pd (by simp)
    rw [List.map_cons, List.map_cons, List.sum_cons, List.map_cons, List.sum_cons]
    push_cast
    rw [Int.toNat_of_nonneg h0, sum_toNat_balances view rest (fun q hq => h q (by simp [hq]))]

theorem sum_map_split (view : RollupState) (delta : List (Nat × Int)) :
    (delta.map (fun pd =>
        pd.2 + (view.depositAmount pd.1 : Int) - (view.withdrawAmount pd.1 : Int))).sum =
      (delta.map (fun kv => kv.2)).sum +
        (delta.map (fun pd =>
          (view.depositAmount pd.1 : Int) - (view.withdrawAmount pd.1 : Int))).sum := by
  induction delta with
  | nil => simp
  | cons pd rest ih =>
    simp [ih]
    ring

/-- Claim C7 (amended): against a settlement view in which every account's
withdraw total is at most its deposit total (the invariant `add_withdraw`
enforces), an accepted balance proof's balances sum to at most
`Σ deposits − Σ withdrawals`; equality holds when every account carrying a
deposit or a withdrawal appears in the returned map.  (Coverage of every
transfer-block receiver alone does not give equality — an account can hold a
deposit without appearing in any transfer block, see the counterexample.) -/
theorem c7_balance_conservation (h2 : Nat → Nat → Nat) (bh : TransactionBatch → Nat)
    (sigVerify : Nat → Nat → Nat → Bool) (view : RollupState)
    (bp : BalanceProof) (m : List (Nat × Nat))
    (hdepnodup : (view.deposit_totals.map (fun kv => kv.1)).Nodup)
    (hwdnodup : (view.withdraw_totals.map (fun kv => kv.1)).Nodup)
    (hcons : ∀ pk, view.withdrawAmount pk ≤ view.depositAmount pk)
    (hok : calculateBalancesAndValidateBalanceProof h2 bh sigVerify view bp = .ok m) :
    ((m.map (fun kv => kv.2)).sum : Int) ≤
      ((view.deposit_totals.map (fun kv => kv.2)).sum : Int) -
        ((view.withdraw_totals.map (fun kv => kv.2)).sum : Int) ∧
    ((∀ pk, pk ∈ view.deposit_totals.map (fun kv => kv.1) ∨
        pk ∈ view.withdraw_totals.map (fun kv => kv.1) → pk ∈ m.map (fun kv => kv.1)) →
      ((m.map (fun kv => kv.2)).sum : Int) =
        ((view.deposit_totals.map (fun kv => kv.2)).sum : Int) -
          ((view.withdraw_totals.map (fun kv => kv.2)).sum : Int)) := by
  unfold calculateBalancesAndValidateBalanceProof calculateBalancesFromProofs at hok
  rcases hcd : collectDeltas h2 bh sigVerify view (bp.map (fun kv => kv.2)) [] with e | delta
  · rw [hcd] at hok
    cases hok
  rw [hcd] at hok
  have hinv := finaliseBalances_ok_inv view delta m hok
  have hnodup := collectDeltas_keys_nodup h2 bh sigVerify view _ [] delta (by simp) hcd
  have hsum0 : (delta.map (fun kv => kv.2)).sum = 0 := by
    simpa using collectDeltas_value_sum h2 bh sigVerify view _ [] delta hcd
  have hmkeys : m.map (fun kv => kv.1) = delta.map (fun kv => kv.1) := by
    rw [hinv.2, List.map_map]
    rfl
  have hmsum : ((m.map (fun kv => kv.2)).sum : Int) =
      (delta.map (fun pd =>
        (view.depositAmount pd.1 : Int) - (view.withdrawAmount pd.1 : Int))).sum := by
    rw [hinv.2, sum_toNat_balances view delta (fun pd hpd => (hinv.1 pd hpd).1),
      sum_map_split, hsum0, zero_add]
  have hSsum : (delta.map (fun pd =>
      (view.depositAmount pd.1 : Int) - (view.withdrawAmount pd.1 : Int))).sum =
      ((delta.map (fun kv => kv.1)).toFinset).sum
        (fun k => (view.depositAmount k : Int) - (view.withdrawAmount k : Int)) := by
    rw [List.sum_toFinset _ hnodup, List.map_map]
    rfl
  have hSK : (delta.map (fun kv => kv.1)).toFinset ⊆
      (delta.map (fun kv => kv.1)).toFinset ∪
        (view.deposit_totals.map (fun kv => kv.1)).toFinset ∪
        (view.withdraw_totals.map (fun kv => kv.1)).toFinset := by
    intro x hx
    simp only [Finset.mem_union]
    tauto
  have hdepsum : (view.deposit_totals.map (fun kv => kv.2)).sum =
      ((view.deposit_totals.map (fun kv => kv.1)).toFinset).sum
        (fun k => view.depositAmount k) := by
    rw [assoc_value_sum _ hdepnodup]
    rfl
  have hwdsum : (view.withdraw_totals.map (fun kv => kv.2)).sum =
      ((view.withdraw_totals.map (fun kv => kv.1)).toFinset).sum
        (fun k => view.withdrawAmount k) := by
    rw [assoc_value_sum _ hwdnodup]
    rfl
  have hdepK : ((view.deposit_totals.map (fun kv => kv.1)).toFinset).sum
      (fun k => view.depositAmount k) =
      ((delta.map (fun kv => kv.1)).toFinset ∪
        (view.deposit_totals.map (fun kv => kv.1)).toFinset ∪
        (view.withdraw_totals.map (fun kv => kv.1)).toFinset).sum
        (fun k => view.depositAmount k) := by
    apply Finset.sum_subset
    · intro x hx
      simp only [Finset.mem_union]
      tauto
    · intro x _ hnx
      unfold RollupState.depositAmount
      rw [alookup_eq_none_of_not_mem_keys _ x
        (fun hm => hnx (List.mem_toFinset.mpr hm))]
      rfl
  have hwdK : ((view.withdraw_totals.map (fun kv => kv.1)).toFinset).sum
      (fun k => view.withdrawAmount k) =
      ((delta.map (fun kv => kv.1)).toFinset ∪
        (view.deposit_totals.map (fun kv => kv.1)).toFinset ∪
        (view.withdraw_totals.map (fun kv => kv.1)).toFinset).sum
        (fun k => view.withdrawAmount k) := by
    apply Finset.sum_subset
    · intro x hx
      simp only [Finset.mem_union]
      tauto
    · intro x _ hnx
      unfold RollupState.withdrawAmount
      rw [alookup_eq_none_of_not_mem_keys _ x
        (fun hm => hnx (List.mem_toFinset.mpr hm))]
      rfl
  have hKsum : (((delta.map (fun kv => kv.1)).toFinset ∪
      (view.deposit_totals.map (fun kv => kv.1)).toFinset ∪
      (view.withdraw_totals.map (fun kv => kv.1)).toFinset).sum
        (fun k => (view.depositAmount k : Int) - (view.withdrawAmount k : Int))) =
      ((view.deposit_totals.map (fun kv => kv.2)).sum : Int) -
        ((view.withdraw_totals.map (fun kv => kv.2)).sum : Int) := by
    rw [Finset.sum_sub_distrib, ← Nat.cast_sum, ← Nat.cast_sum, ← hdepK, ← hwdK,
      ← hdepsum, ← hwdsum]
    rw [Nat.cast_list_sum, Nat.cast_list_sum, List.map_map, List.map_map]
    rfl
  constructor
  · rw [hmsum, hSsum, ← hKsum]
    apply Finset.sum_le_sum_of_subset_of_nonneg hSK
    intro i _ _
    have := hcons i
    omega
  · intro hcover
    have hKS : (delta.map (fun kv => kv.1)).toFinset ∪
        (view.deposit_totals.map (fun kv => kv.1)).toFinset ∪
        (view.withdraw_totals.map (fun kv => kv.1)).toFinset =
        (delta.map (fun kv => kv.1)).toFinset := by
      apply Finset.Subset.antisymm
      · intro x hx
        simp only [Finset.mem_union, List.mem_toFinset] at hx ⊢
        rcases hx with (hx | hx) | hx
        · exact hx
        · have := hcover x (Or.inl hx)
          rw [hmkeys] at this
          exact this
        · have := hcover x (Or.inr hx)
          rw [hmkeys] at this
          exact this
      · exact hSK
    rw [hmsum, hSsum, ← hKsum, hKS]

/-- Counterexample for C7 as stated: a view holding a deposit of 100 for
account 1 and no transfer blocks, with the empty balance proof.  The proof
covers every receiver of every committed transfer block (there are none), the
validator accepts with the empty balance map, yet `Σ balances = 0 < 100 =
Σ deposits − Σ withdrawals`, against the claim's equality. -/
theorem c7_counterexample :
    calculateBalancesAndValidateBalanceProof (fun x _ => x) (fun _ => 0)
        (fun _ _ _ => true)
        { deposit_totals := [(1, 100)], withdraw_totals := [], transfer_blocks := [] }
        [] = .ok [] ∧
    ({ deposit_totals := [(1, 100)], withdraw_totals := [], transfer_blocks := [] }
      : RollupState).transfer_blocks = [] ∧
    ¬ ((([] : List (Nat × Nat)).map (fun kv => kv.2)).sum : Int) =
        ((([(1, 100)] : List (Nat × Nat)).map (fun kv => kv.2)).sum : Int) -
          ((([] : List (Nat × Nat)).map (fun kv => kv.2)).sum : Int) :=
  ⟨rfl, rfl, by decide⟩

/-- Witness for C7: one committed transfer moves 30 of account 1's 100-unit
deposit to account 2; the validator accepts with balances 70 and 30, whose sum
meets the bound with equality (both clauses of the theorem applied at this
input). -/
theorem c7_witness :
    (((([(1, 70), (2, 30)] : List (Nat × Nat)).map (fun kv => kv.2)).sum : Int) ≤
      ((([(1, 100)] : List (Nat × Nat)).map (fun kv => kv.2)).sum : Int) -
        ((([] : List (Nat × Nat)).map (fun kv => kv.2)).sum : Int)) ∧
    ((([(1, 70), (2, 30)] : List (Nat × Nat)).map (fun kv => kv.2)).sum : Int) =
      ((([(1, 100)] : List (Nat × Nat)).map (fun kv => kv.2)).sum : Int) -
        ((([] : List (Nat × Nat)).map (fun kv => kv.2)).sum : Int) := by
  have hcheck : entryCheck (fun x _ => x) (fun _ => 5) (fun _ _ _ => true)
      { deposit_totals := [(1, 100)], withdraw_totals := [],
        transfer_blocks := [{ signature := .Individual 0 1, merkle_root := 5 }] }
      { proof_hashes := [], root := 5,
        batch := { fromPk := 1, transactions :=
          [{ toPk := 2, fromPk := 1, amount := 30, salt := 0 }] },
        index := 0, total_leaves := 1 } = none := by
    unfold entryCheck
    rw [if_neg (by rw [verify_singleton_proof]; simp)]
    rfl
  have hok : calculateBalancesAndValidateBalanceProof (fun x _ => x) (fun _ => 5)
      (fun _ _ _ => true)
      { deposit_totals := [(1, 100)], withdraw_totals := [],
        transfer_blocks := [{ signature := .Individual 0 1, merkle_root := 5 }] }
      [({ root := 5, public_key := 1 },
        { proof_hashes := [], root := 5,
          batch := { fromPk := 1, transactions :=
            [{ toPk := 2, fromPk := 1, amount := 30, salt := 0 }] },
          index := 0, total_leaves := 1 })] = .ok [(1, 70), (2, 30)] := by
    unfold calculateBalancesAndValidateBalanceProof calculateBalancesFromProofs
    rw [List.map_cons, collectDeltas, hcheck]
    rfl
  have h := c7_balance_conservation (fun x _ => x) (fun _ => 5) (fun _ _ _ => true)
    { deposit_totals := [(1, 100)], withdraw_totals := [],
      transfer_blocks := [{ signature := .Individual 0 1, merkle_root := 5 }] }
    [({ root := 5, public_key := 1 },
      { proof_hashes := [], root := 5,
        batch := { fromPk := 1, transactions :=
          [{ toPk := 2, fromPk := 1, amount := 30, salt := 0 }] },
        index := 0, total_leaves := 1 })]
    [(1, 70), (2, 30)] (by decide) (by decide)
    (by
      intro pk
      unfold RollupState.depositAmount RollupState.withdrawAmount
      simp [alookup])
    hok
  exact ⟨h.1, h.2 (by intro pk hpk; rcases hpk with hp | hp <;> simp_all)⟩

theorem bumpDelta_lookupD (pk : Nat) (d : Int) :
    ∀ (m : List (Nat × Int)) (q : Nat),
      (alookup (bumpDelta m pk d) q).getD 0 =
        (alookup m q).getD 0 + (if pk = q then d else 0)
  | [], q => by
    by_cases h : pk = q <;> simp [bumpDelta, alookup, h]
  | (k, v) :: rest, q => by
    by_cases hk : k = pk
    · subst hk
      by_cases hq : k = q <;> simp [bumpDelta, alookup, hq]
    · by_cases hq : k = q
      · subst hq
        have hne : ¬ pk = k := fun e => hk e.symm
        simp [bumpDelta, hk, alookup, hne]
      · simp [bumpDelta, hk, alookup, hq, bumpDelta_lookupD pk d rest q]

theorem applyBatch_lookupD (b : TransactionBatch) :
    ∀ (txs : List SimpleTransaction) (delta : List (Nat × Int)) (q : Nat),
      (alookup
          (txs.foldl (fun d t => bumpDelta (bumpDelta d b.fromPk (-(t.amount : Int)))
            t.toPk (t.amount : Int)) delta) q).getD 0 =
        (alookup delta q).getD 0 +
          (txs.map (fun t =>
            (if t.toPk = q then (t.amount : Int) else 0) -
              (if b.fromPk = q then (t.amount : Int) else 0))).sum
  | [], delta, q => by simp
  | t :: rest, delta, q => by
    rw [List.foldl_cons, applyBatch_lookupD b rest _ q, bumpDelta_lookupD, bumpDelta_lookupD]
    simp only [List.map_cons, List.sum_cons]
    by_cases h1 : t.toPk = q <;> by_cases h2 : b.fromPk = q <;> simp [h1, h2] <;> ring

theorem applyBatch_mem_keys (b : TransactionBatch) :
    ∀ (txs : List SimpleTransaction) (delta : List (Nat × Int)) (q : Nat),
      (q ∈ (txs.foldl (fun d t => bumpDelta (bumpDelta d b.fromPk (-(t.amount : Int)))
          t.toPk (t.amount : Int)) delta).map (fun kv => kv.1)) ↔
        q ∈ delta.map (fun kv => kv.1) ∨ ∃ t ∈ txs, q = b.fromPk ∨ q = t.toPk
  | [], delta, q => by simp
  | t :: rest, delta, q => by
    rw [List.foldl_cons, applyBatch_mem_keys b rest _ q,
      bumpDelta_mem_keys, bumpDelta_mem_keys]
    simp only [List.mem_cons]
    constructor
    · intro h
      rcases h with ((h | h) | h) | ⟨t', ht', h⟩
      · exact Or.inl h
      · exact Or.inr ⟨t, Or.inl rfl, Or.inl h⟩
      · exact Or.inr ⟨t, Or.inl rfl, Or.inr h⟩
      · exact Or.inr ⟨t', Or.inr ht', h⟩
    · intro h
      rcases h with h | ⟨t', ht' | ht', h⟩
      · exact Or.inl (Or.inl (Or.inl h))
      · subst ht'
        rcases h with h | h
        · exact Or.inl (Or.inl (Or.inr h))
        · exact Or.inl (Or.inr h)
      · exact Or.inr ⟨t', ht', h⟩

theorem collectDeltas_ok_inv (h2 : Nat → Nat → Nat) (bh : TransactionBatch → Nat)
    (sigVerify : Nat → Nat → Nat → Bool) (view : RollupState) :
    ∀ (proofs : List TransactionProof) (delta0 d : List (Nat × Int)),
      collectDeltas h2 bh sigVerify view proofs delta0 = .ok d →
      (∀ p ∈ proofs, entryCheck h2 bh sigVerify view p = none) ∧
      (∀ q, (alookup d q).getD 0 =
        (alookup delta0 q).getD 0 + (proofs.map (fun p => batchNet p.batch q)).sum) ∧
      (∀ q, q ∈ d.map (fun kv => kv.1) ↔
        q ∈ delta0.map (fun kv => kv.1) ∨ ∃ p ∈ proofs, touchesKey p.batch q)
  | [], delta0, d => by
    intro hok
    rw [collectDeltas] at hok
    cases hok
    refine ⟨by simp, by simp, by simp⟩
  | p :: rest, delta0, d => by
    intro hok
    rw [collectDeltas] at hok
    cases hq : entryCheck h2 bh sigVerify view p with
    | some e => rw [hq] at hok; cases hok
    | none =>
      rw [hq] at hok
      have ih := collectDeltas_ok_inv h2 bh sigVerify view rest _ d hok
      refine ⟨?_, ?_, ?_⟩
      · intro p' hp'
        rcases List.mem_cons.mp hp' with he | ht
        · rw [he]; exact hq
        · exact ih.1 p' ht
      · intro q
        rw [ih.2.1 q]
        unfold applyBatch
        rw [applyBatch_lookupD]
        simp only [List.map_cons, List.sum_cons]
        unfold batchNet
        ring
      · intro q
        rw [ih.2.2 q]
        unfold applyBatch
        rw [applyBatch_mem_keys]
        simp only [List.mem_cons]
        unfold touchesKey
        constructor
        · intro h
          rcases h with (h | h) | ⟨p', hp', h⟩
          · exact Or.inl h
          · exact Or.inr ⟨p, Or.inl rfl, h⟩
          · exact Or.inr ⟨p', Or.inr hp', h⟩
        · intro h
          rcases h with h | ⟨p', hp' | hp', h⟩
          · exact Or.inl (Or.inl h)
          · subst hp'
            exact Or.inl (Or.inr h)
          · exact Or.inr ⟨p', hp', h⟩

theorem collectDeltas_ok_exists (h2 : Nat → Nat → Nat) (bh : TransactionBatch → Nat)
    (sigVerify : Nat → Nat → Nat → Bool) (view : RollupState) :
    ∀ (proofs : List TransactionProof) (delta0 : List (Nat × Int)),
      (∀ p ∈ proofs, entryCheck h2 bh sigVerify view p = none) →
      ∃ d, collectDeltas h2 bh sigVerify view proofs delta0 = .ok d
  | [], delta0 => by
    intro _
    exact ⟨delta0, by rw [collectDeltas]⟩
  | p :: rest, delta0 => by
    intro h
    obtain ⟨d, hd⟩ := collectDeltas_ok_exists h2 bh sigVerify view rest
      (applyBatch delta0 p.batch) (fun p' hp' => h p' (by simp [hp']))
    exact ⟨d, by rw [collectDeltas, h p (by simp)]; exact hd⟩

theorem finaliseBalances_ok_all (view : RollupState) :
    ∀ delta : List (Nat × Int),
      (∀ pd ∈ delta,
        0 ≤ pd.2 + (view.depositAmount pd.1 : Int) - (view.withdrawAmount pd.1 : Int) ∧
        pd.2 + (view.depositAmount pd.1 : Int) - (view.withdrawAmount pd.1 : Int) <
          (u64Bound : Int)) →
      ∃ m, finaliseBalances view delta = .ok m
  | [] => by
    intro _
    exact ⟨[], by rw [finaliseBalances]⟩
  | (pk, amt) :: rest => by
    intro h
    obtain ⟨m, hm⟩ := finaliseBalances_ok_all view rest (fun pd hpd => h pd (by simp [hpd]))
    refine ⟨(pk, (amt + (view.depositAmount pk : Int) -
      (view.withdrawAmount pk : Int)).toNat) :: m, ?_⟩
    rw [finaliseBalances]
    have h0 := h (pk, amt) (by simp)
    rw [if_neg (by dsimp only at h0; omega)]
    rw [hm]

theorem mem_of_alookup_eq_some {κ α : Type} [DecidableEq κ] :
    ∀ (m : List (κ × α)) (k : κ) (v : α), alookup m k = some v → (k, v) ∈ m
  | [], k, v => by simp [alookup]
  | (k1, v1) :: rest, k, v => by
    by_cases h : k1 = k
    · subst h
      simp [alookup]
      intro he
      exact Or.inl he.symm
    · simp [alookup, h]
      intro hm
      exact Or.inr (mem_of_alookup_eq_some rest k v hm)

theorem alookup_isSome_of_mem_keys {κ α : Type} [DecidableEq κ] :
    ∀ (m : List (κ × α)) (k : κ), k ∈ m.map (fun kv => kv.1) → (alookup m k).isSome
  | [], k => by simp
  | (k1, v) :: rest, k => by
    intro h
    by_cases he : k1 = k
    · simp [alookup, he]
    · simp only [List.map_cons, List.mem_cons] at h
      rcases h with h | h
      · exact absurd h.symm he
      · simp only [alookup, if_neg he]
        exact alookup_isSome_of_mem_keys rest k h

theorem alookup_eq_of_keys_lookupD (d1 d2 : List (Nat × Int))
    (hkeys : ∀ q, q ∈ d1.map (fun kv => kv.1) ↔ q ∈ d2.map (fun kv => kv.1))
    (hval : ∀ q, (alookup d1 q).getD 0 = (alookup d2 q).getD 0) :
    ∀ q, alookup d1 q = alookup d2 q := by
  intro q
  by_cases h : q ∈ d1.map (fun kv => kv.1)
  · obtain ⟨v1, hv1⟩ := Option.isSome_iff_exists.mp (alookup_isSome_of_mem_keys d1 q h)
    obtain ⟨v2, hv2⟩ := Option.isSome_iff_exists.mp
      (alookup_isSome_of_mem_keys d2 q ((hkeys q).mp h))
    have hvv := hval q
    rw [hv1, hv2] at hvv ⊢
    simp at hvv
    rw [hvv]
  · rw [alookup_eq_none_of_not_mem_keys d1 q h,
      alookup_eq_none_of_not_mem_keys d2 q (fun hm => h ((hkeys q).mpr hm))]

theorem finaliseBalances_status (view : RollupState) (d1 d2 : List (Nat × Int))
    (hn2 : (d2.map (fun kv => kv.1)).Nodup)
    (hkeys : ∀ q, q ∈ d1.map (fun kv => kv.1) ↔ q ∈ d2.map (fun kv => kv.1))
    (hval : ∀ q, (alookup d1 q).getD 0 = (alookup d2 q).getD 0)
    (hok : ∃ m, finaliseBalances view d1 = .ok m) :
    ∃ m, finaliseBalances view d2 = .ok m := by
  obtain ⟨m, hm⟩ := hok
  have hgood := (finaliseBalances_ok_inv view d1 m hm).1
  apply finaliseBalances_ok_all
  intro pd hpd
  have hk2 : pd.1 ∈ d2.map (fun kv => kv.1) := List.mem_map.mpr ⟨pd, hpd, rfl⟩
  have hk1 : pd.1 ∈ d1.map (fun kv => kv.1) := (hkeys pd.1).mpr hk2
  obtain ⟨v, hv⟩ := Option.isSome_iff_exists.mp (alookup_isSome_of_mem_keys d1 pd.1 hk1)
  have hg := hgood (pd.1, v) (mem_of_alookup_eq_some d1 pd.1 v hv)
  have hl2 : alookup d2 pd.1 = some pd.2 := alookup_of_mem_nodup d2 hn2 pd hpd
  have hvv := hval pd.1
  rw [hv, hl2] at hvv
  simp at hvv
  dsimp only at hg
  rw [hvv] at hg
  exact hg

/-- Claim C10: the validator's outcome is a function of the multiset of
`TransactionProof` values stored in the balance proof together with the
settlement view — the `(root, public_key)` map keys are never consulted.  Two
balance proofs with permuted value lists accept or reject together, and
accepted runs return the same key/value map; and a balance proof storing one
`TransactionProof` under two distinct keys accumulates that batch's
transaction amounts twice in the deltas. -/
theorem c10_validator_value_determined (h2 : Nat → Nat → Nat)
    (bh : TransactionBatch → Nat) (sigVerify : Nat → Nat → Nat → Bool)
    (view : RollupState) :
    (∀ bp1 bp2 : BalanceProof,
      (bp1.map (fun kv => kv.2)).Perm (bp2.map (fun kv => kv.2)) →
      ((∃ m, calculateBalancesAndValidateBalanceProof h2 bh sigVerify view bp1 = .ok m) ↔
        (∃ m, calculateBalancesAndValidateBalanceProof h2 bh sigVerify view bp2 = .ok m)) ∧
      (∀ m1 m2,
        calculateBalancesAndValidateBalanceProof h2 bh sigVerify view bp1 = .ok m1 →
        calculateBalancesAndValidateBalanceProof h2 bh sigVerify view bp2 = .ok m2 →
        ∀ q, alookup m1 q = alookup m2 q)) ∧
    (∀ (k1 k2 : BalanceProofKey) (p : TransactionProof), k1 ≠ k2 →
      entryCheck h2 bh sigVerify view p = none →
      ∃ d2 d1,
        collectDeltas h2 bh sigVerify view
          (([(k1, p), (k2, p)] : BalanceProof).map (fun kv => kv.2)) [] = .ok d2 ∧
        collectDeltas h2 bh sigVerify view
          (([(k1, p)] : BalanceProof).map (fun kv => kv.2)) [] = .ok d1 ∧
        ∀ q, (alookup d2 q).getD 0 = 2 * (alookup d1 q).getD 0) := by
  have key : ∀ l1 l2 : List TransactionProof, l1.Perm l2 →
      ∀ d1 d2, collectDeltas h2 bh sigVerify view l1 [] = .ok d1 →
        collectDeltas h2 bh sigVerify view l2 [] = .ok d2 →
        (∀ q, q ∈ d1.map (fun kv => kv.1) ↔ q ∈ d2.map (fun kv => kv.1)) ∧
        (∀ q, (alookup d1 q).getD 0 = (alookup d2 q).getD 0) := by
    intro l1 l2 hp d1 d2 hc1 hc2
    have i1 := collectDeltas_ok_inv h2 bh sigVerify view l1 [] d1 hc1
    have i2 := collectDeltas_ok_inv h2 bh sigVerify view l2 [] d2 hc2
    constructor
    · intro q
      rw [i1.2.2 q, i2.2.2 q]
      simp only [List.map_nil, List.not_mem_nil, false_or]
      constructor
      · intro ⟨p, hpm, ht⟩
        exact ⟨p, hp.mem_iff.mp hpm, ht⟩
      · intro ⟨p, hpm, ht⟩
        exact ⟨p, hp.mem_iff.mpr hpm, ht⟩
    · intro q
      rw [i1.2.1 q, i2.2.1 q]
      congr 1
      exact List.Perm.sum_eq (hp.map (fun p => batchNet p.batch q))
  refine ⟨?_, ?_⟩
  · intro bp1 bp2 hperm
    have dir : ∀ a b : BalanceProof,
        (a.map (fun kv => kv.2)).Perm (b.map (fun kv => kv.2)) →
        (∃ m, calculateBalancesAndValidateBalanceProof h2 bh sigVerify view a = .ok m) →
        ∃ m, calculateBalancesAndValidateBalanceProof h2 bh sigVerify view b = .ok m := by
      intro a b hp hex
      obtain ⟨m, hm⟩ := hex
      unfold calculateBalancesAndValidateBalanceProof calculateBalancesFromProofs at hm ⊢
      rcases hcd : collectDeltas h2 bh sigVerify view (a.map (fun kv => kv.2)) [] with e | d1
      · rw [hcd] at hm
        cases hm
      rw [hcd] at hm
      have i1 := collectDeltas_ok_inv h2 bh sigVerify view _ [] d1 hcd
      obtain ⟨d2, hd2⟩ := collectDeltas_ok_exists h2 bh sigVerify view
        (b.map (fun kv => kv.2)) [] (fun p hpm => i1.1 p (hp.mem_iff.mpr hpm))
      rw [hd2]
      have hk := key _ _ hp d1 d2 hcd hd2
      have hn2 := collectDeltas_keys_nodup h2 bh sigVerify view _ [] d2 (by simp) hd2
      exact finaliseBalances_status view d1 d2 hn2 hk.1 hk.2 ⟨m, hm⟩
    refine ⟨⟨dir bp1 bp2 hperm, dir bp2 bp1 hperm.symm⟩, ?_⟩
    intro m1 m2 hm1 hm2 q
    unfold calculateBalancesAndValidateBalanceProof calculateBalancesFromProofs at hm1 hm2
    rcases hcd1 : collectDeltas h2 bh sigVerify view (bp1.map (fun kv => kv.2)) [] with e | d1
    · rw [hcd1] at hm1
      cases hm1
    rcases hcd2 : collectDeltas h2 bh sigVerify view (bp2.map (fun kv => kv.2)) [] with e | d2
    · rw [hcd2] at hm2
      cases hm2
    rw [hcd1] at hm1
    rw [hcd2] at hm2
    have hi1 := (finaliseBalances_ok_inv view d1 m1 hm1).2
    have hi2 := (finaliseBalances_ok_inv view d2 m2 hm2).2
    have hk := key _ _ hperm d1 d2 hcd1 hcd2
    rw [hi1, hi2, alookup_balances_map, alookup_balances_map,
      alookup_eq_of_keys_lookupD d1 d2 hk.1 hk.2 q]
  · intro k1 k2 p hne hchk
    refine ⟨applyBatch (applyBatch [] p.batch) p.batch, applyBatch [] p.batch, ?_, ?_, ?_⟩
    · simp only [List.map_cons, List.map_nil]
      rw [collectDeltas, hchk]
      dsimp only
      rw [collectDeltas, hchk]
      dsimp only
      rw [collectDeltas]
    · simp only [List.map_cons, List.map_nil]
      rw [collectDeltas, hchk]
      dsimp only
      rw [collectDeltas]
    · intro q
      unfold applyBatch
      simp only [applyBatch_lookupD]
      simp [alookup]
      ring

/-- Witness for C10: the same stored proof under two different keys validates
identically, and duplicated under two distinct keys it accrues its batch's
amounts twice. -/
theorem c10_witness :
    ((∃ m, calculateBalancesAndValidateBalanceProof (fun x _ => x) (fun _ => 5)
        (fun _ _ _ => true)
        { deposit_totals := [(1, 100)], withdraw_totals := [],
          transfer_blocks := [{ signature := .Individual 0 1, merkle_root := 5 }] }
        [({ root := 5, public_key := 1 },
          { proof_hashes := [], root := 5,
            batch := { fromPk := 1, transactions :=
              [{ toPk := 2, fromPk := 1, amount := 30, salt := 0 }] },
            index := 0, total_leaves := 1 })] = .ok m) ↔
      (∃ m, calculateBalancesAndValidateBalanceProof (fun x _ => x) (fun _ => 5)
        (fun _ _ _ => true)
        { deposit_totals := [(1, 100)], withdraw_totals := [],
          transfer_blocks := [{ signature := .Individual 0 1, merkle_root := 5 }] }
        [({ root := 0, public_key := 0 },
          { proof_hashes := [], root := 5,
            batch := { fromPk := 1, transactions :=
              [{ toPk := 2, fromPk := 1, amount := 30, salt := 0 }] },
            index := 0, total_leaves := 1 })] = .ok m)) ∧
    (∃ d2 d1,
      collectDeltas (fun x _ => x) (fun _ => 5) (fun _ _ _ => true)
        { deposit_totals := [(1, 100)], withdraw_totals := [],
          transfer_blocks := [{ signature := .Individual 0 1, merkle_root := 5 }] }
        (([({ root := 5, public_key := 1 },
            { proof_hashes := [], root := 5,
              batch := { fromPk := 1, transactions :=
                [{ toPk := 2, fromPk := 1, amount := 30, salt := 0 }] },
              index := 0, total_leaves := 1 }),
           ({ root := 0, public_key := 0 },
            { proof_hashes := [], root := 5,
              batch := { fromPk := 1, transactions :=
                [{ toPk := 2, fromPk := 1, amount := 30, salt := 0 }] },
              index := 0, total_leaves := 1 })] : BalanceProof).map (fun kv => kv.2)) [] =
        .ok d2 ∧
      collectDeltas (fun x _ => x) (fun _ => 5) (fun _ _ _ => true)
        { deposit_totals := [(1, 100)], withdraw_totals := [],
          transfer_blocks := [{ signature := .Individual 0 1, merkle_root := 5 }] }
        (([({ root := 5, public_key := 1 },
            { proof_hashes := [], root := 5,
              batch := { fromPk := 1, transactions :=
                [{ toPk := 2, fromPk := 1, amount := 30, salt := 0 }] },
              index := 0, total_leaves := 1 })] : BalanceProof).map (fun kv => kv.2)) [] =
        .ok d1 ∧
      ∀ q, (alookup d2 q).getD 0 = 2 * (alookup d1 q).getD 0) := by
  have hchk : entryCheck (fun x _ => x) (fun _ => 5) (fun _ _ _ => true)
      { deposit_totals := [(1, 100)], withdraw_totals := [],
        transfer_blocks := [{ signature := .Individual 0 1, merkle_root := 5 }] }
      { proof_hashes := [], root := 5,
        batch := { fromPk := 1, transactions :=
          [{ toPk := 2, fromPk := 1, amount := 30, salt := 0 }] },
        index := 0, total_leaves := 1 } = none := by
    unfold entryCheck
    rw [if_neg (by rw [verify_singleton_proof]; simp)]
    rfl
  have h := c10_validator_value_determined (fun x _ => x) (fun _ => 5) (fun _ _ _ => true)
    { deposit_totals := [(1, 100)], withdraw_totals := [],
      transfer_blocks := [{ signature := .Individual 0 1, merkle_root := 5 }] }
  exact ⟨(h.1
      [({ root := 5, public_key := 1 },
        { proof_hashes := [], root := 5,
          batch := { fromPk := 1, transactions :=
            [{ toPk := 2, fromPk := 1, amount := 30, salt := 0 }] },
          index := 0, total_leaves := 1 })]
      [({ root := 0, public_key := 0 },
        { proof_hashes := [], root := 5,
          batch := { fromPk := 1, transactions :=
            [{ toPk := 2, fromPk := 1, amount := 30, salt := 0 }] },
          index := 0, total_leaves := 1 })]
      (List.Perm.refl _)).1,
    h.2 { root := 5, public_key := 1 } { root := 0, public_key := 0 } _ (by decide) hchk⟩

end StatelessPayments
